import Mathlib

/-!
Verification of the feedo feed reader core: the offline cache
(src/feed/cache.rs), the item-identity function (src/feed/cache.rs,
src/feed/item.rs), the remote item-ID codec (src/sync/types.rs) and
the sync engine (src/sync/manager.rs), shallowly embedded in Lean.

Rust strings are modelled as Lean String (lists of characters),
i64 as Int with explicit two-power bounds, u64 arithmetic as Nat
with explicit mod 2^64, DateTime timestamps as Int, HashMap as an
association list with first-match lookup, and HashSet membership as
list membership.  Fallible remote calls are modelled as Except-valued
oracles passed in as functions.
-/

namespace Feedo

/-! ## Character and digit utilities -/

/-- True when the pattern list is an initial segment of the subject list
(models str::starts_with / strip_prefix matching on the tag). -/
def leadsWith : List Char → List Char → Bool
  | [], _ => true
  | _ :: _, [] => false
  | p :: ps, c :: cs => p == c && leadsWith ps cs

/-- True when the pattern list is a final segment of the subject list
(models str::ends_with). -/
def trailsWith (pat s : List Char) : Bool :=
  leadsWith pat.reverse s.reverse

/-- The big-endian base-`b` digit list of `n`, zero padded to exactly `k`
digits (the digits of `n % b^k`). -/
def digitsBE (b : Nat) : Nat → Nat → List Nat
  | 0, _ => []
  | k + 1, n => digitsBE b k (n / b) ++ [n % b]

/-- Hex value of a character, as accepted by Rust's
i64::from_str_radix(_, 16) (char::to_digit(16)). -/
def hexVal? (c : Char) : Option Nat :=
  if '0' ≤ c ∧ c ≤ '9' then some (c.toNat - '0'.toNat)
  else if 'a' ≤ c ∧ c ≤ 'f' then some (c.toNat - 'a'.toNat + 10)
  else if 'A' ≤ c ∧ c ≤ 'F' then some (c.toNat - 'A'.toNat + 10)
  else none

/-- Decimal value of a character, as accepted by i64's FromStr. -/
def decVal? (c : Char) : Option Nat :=
  if '0' ≤ c ∧ c ≤ '9' then some (c.toNat - '0'.toNat) else none

/-- Models char.is_ascii_hexdigit(). -/
def isHexChar (c : Char) : Bool :=
  ('0' ≤ c && c ≤ '9') || ('a' ≤ c && c ≤ 'f') || ('A' ≤ c && c ≤ 'F')

/-- Digit-accumulation loop of from_str_radix from an explicit
accumulator; any invalid character yields none. -/
def digitsValFrom (base : Nat) (dv : Char → Option Nat) (acc : Option Nat)
    (cs : List Char) : Option Nat :=
  cs.foldl
    (fun a c =>
      match a, dv c with
      | some x, some d => some (base * x + d)
      | _, _ => none)
    acc

/-- Accumulate digit values over a character list starting from zero. -/
def digitsVal (base : Nat) (dv : Char → Option Nat) (cs : List Char) : Option Nat :=
  digitsValFrom base dv (some 0) cs

/-- Models i64::from_str_radix / i64's FromStr: an optional single sign,
then at least one digit, with the i64 range check.  Rust checks overflow
at every accumulation step; since the accumulated value only grows, that
is equivalent to the final range check used here. -/
def fromStrRadix (base : Nat) (dv : Char → Option Nat) (s : List Char) : Option Int :=
  match s with
  | [] => none
  | c :: rest =>
    if c = '+' ∨ c = '-' then
      match rest with
      | [] => none
      | _ =>
        match digitsVal base dv rest with
        | none => none
        | some v =>
          if c = '-' then
            if v ≤ 2 ^ 63 then some (-(v : Int)) else none
          else
            if v ≤ 2 ^ 63 - 1 then some (v : Int) else none
    else
      match digitsVal base dv s with
      | none => none
      | some v => if v ≤ 2 ^ 63 - 1 then some (v : Int) else none

/-! ## Remote item ID codec (src/sync/types.rs) -/

/-- The long-form item ID tag (the PREFIX constant in parse_item_id). -/
def longTag : String := "tag:google.com,2005:reader/item/"

/-- format!("{:016x}", id as u64): sixteen big-endian lowercase hex digits
of `x` reinterpreted as u64.  The value is always below 2^64 = 16^16, so a
fixed width of 16 is exact. -/
def hex16 (x : Int) : List Char :=
  (digitsBE 16 16 (x % (2 : Int) ^ 64).toNat).map Nat.digitChar

/-- format_item_id_long from src/sync/types.rs. -/
def format_item_id_long (x : Int) : String :=
  longTag ++ String.mk (hex16 x)

/-- format_item_id_short from src/sync/types.rs. -/
def format_item_id_short (x : Int) : String :=
  String.mk (hex16 x)

/-- parse_item_id from src/sync/types.rs: first the long prefixed hex
form, then the 16-character hex form, then decimal. -/
def parse_item_id (s : String) : Option Int :=
  if leadsWith longTag.data s.data then
    fromStrRadix 16 hexVal? (s.data.drop longTag.data.length)
  else if s.data.length = 16 && s.data.all isHexChar then
    fromStrRadix 16 hexVal? s.data
  else
    fromStrRadix 10 decVal? s.data

/-! ## Item identity (CachedItem::generate_id in src/feed/cache.rs and
FeedItem::generate_id in src/feed/item.rs, which are textually identical) -/

/-- Stand-in for std's DefaultHasher (SipHash-1-3 with zero keys) finishing
to u64.  The repository uses the hasher as an opaque deterministic function
of the hashed string; the claims depend only on determinism, on which
string is selected for hashing, and on the hash distinguishing small
concrete strings (which SipHash does).  Modelled as an FNV-style fold
reduced mod 2^64. -/
def hashStr (s : String) : Nat :=
  s.data.foldl (fun h c => (h * 1099511628211 + c.toNat) % 2 ^ 64) 14695981039346656037

/-- Drop leading zero digits (format!("{:x}") prints no leading zeros). -/
def stripZeros : List Nat → List Nat
  | 0 :: t => stripZeros t
  | l => l

/-- format!("{:x}", n) for n < 2^64: unpadded lowercase hex digits. -/
def hexUnpadded (n : Nat) : List Char :=
  match stripZeros (digitsBE 16 16 n) with
  | [] => ['0']
  | ds => ds.map Nat.digitChar

/-- generate_id from src/feed/cache.rs (and src/feed/item.rs): hash the
link whenever it is present, otherwise hash the title, and format the
64-bit result as unpadded lowercase hex. -/
def generate_id (link : Option String) (title : String) : String :=
  let h := hashStr (match link with | some l => l | none => title)
  String.mk (hexUnpadded h)

/-- Modelled from the spec's words, for refinement comparison with
generate_id: hash the link only when it is present AND non-empty,
otherwise hash the title. -/
def generate_id_specNonempty (link : Option String) (title : String) : String :=
  let h := hashStr (match link with
    | some l => if l = "" then title else l
    | none => title)
  String.mk (hexUnpadded h)

/-! ## Offline cache (src/feed/cache.rs) -/

/-- CachedItem.  Timestamps are modelled as Int. -/
structure CachedItem where
  id : String
  title : String
  link : Option String
  published : Option Int
  summary : Option String
  read : Bool
  cached_at : Int
deriving Repr, DecidableEq

/-- CachedFeed. -/
structure CachedFeed where
  url : String
  name : String
  items : List CachedItem
  last_fetched : Option Int
  last_error : Option String
deriving Repr, DecidableEq

/-- FeedCache: the feeds HashMap modelled as an association list (the real
map has unique keys; lookup takes the first match) plus the dirty flag. -/
structure FeedCache where
  feeds : List (String × CachedFeed)
  dirty : Bool
deriving Repr, DecidableEq

/-- HashMap::get on the feeds map. -/
def lookupFeed (feeds : List (String × CachedFeed)) (url : String) : Option CachedFeed :=
  (feeds.find? (fun p => p.1 == url)).map (fun p => p.2)

/-- Write a value under a key: replace the first matching entry in place,
or append a fresh entry (HashMap insert / entry().or_insert_with followed
by mutation of the entry). -/
def setFeed : List (String × CachedFeed) → String → CachedFeed → List (String × CachedFeed)
  | [], url, f => [(url, f)]
  | p :: t, url, f => if p.1 == url then (url, f) :: t else p :: setFeed t url f

/-- The old_states HashMap of update_feed, collected from (id, read)
pairs: on duplicate ids the last pair wins, as HashMap collect overwrites. -/
def oldReadState (olds : List CachedItem) (id : String) : Option Bool :=
  (olds.reverse.find? (fun i => i.id == id)).map (fun i => i.read)

/-- The per-item merge step of update_feed: restore the read flag from the
old cache when an old item with the same id existed. -/
def mergeItem (olds : List CachedItem) (it : CachedItem) : CachedItem :=
  match oldReadState olds it.id with
  | some r => { it with read := r }
  | none => it

/-- FeedCache::update_feed.  `now` models Utc::now(). -/
def update_feed (c : FeedCache) (url name : String) (items : List CachedItem)
    (error : Option String) (now : Int) : FeedCache :=
  let old := (lookupFeed c.feeds url).getD
    { url := url, name := name, items := [], last_fetched := none, last_error := none }
  let f1 := { old with name := name, last_error := error }
  let f2 :=
    if f1.last_error.isNone then
      { f1 with
        last_fetched := some now,
        items := items.map (mergeItem old.items) }
    else f1
  { feeds := setFeed c.feeds url f2, dirty := true }

/-- The inner loop of FeedCache::set_item_read: flip the read flag of the
first item with the given id when it differs; the Bool reports whether
anything changed. -/
def setReadInList : List CachedItem → String → Bool → List CachedItem × Bool
  | [], _, _ => ([], false)
  | i :: t, id, r =>
    if i.id == id then
      if i.read != r then ({ i with read := r } :: t, true) else (i :: t, false)
    else
      let p := setReadInList t id r
      (i :: p.1, p.2)

/-- FeedCache::set_item_read. -/
def set_item_read (c : FeedCache) (url id : String) (r : Bool) : FeedCache :=
  match lookupFeed c.feeds url with
  | none => c
  | some f =>
    let p := setReadInList f.items id r
    { feeds := setFeed c.feeds url { f with items := p.1 }, dirty := c.dirty || p.2 }

/-- The loop of FeedCache::mark_feed_read: set read on every unread item;
the Bool reports whether at least one item changed. -/
def markReadAll : List CachedItem → List CachedItem × Bool
  | [] => ([], false)
  | i :: t =>
    let p := markReadAll t
    if i.read then (i :: p.1, p.2) else ({ i with read := true } :: p.1, true)

/-- FeedCache::mark_feed_read. -/
def mark_feed_read (c : FeedCache) (url : String) : FeedCache :=
  match lookupFeed c.feeds url with
  | none => c
  | some f =>
    let p := markReadAll f.items
    { feeds := setFeed c.feeds url { f with items := p.1 }, dirty := c.dirty || p.2 }

/-- HashMap::remove: drop the first entry with the key. -/
def eraseFeed : List (String × CachedFeed) → String → List (String × CachedFeed)
  | [], _ => []
  | p :: t, url => if p.1 == url then t else p :: eraseFeed t url

/-- FeedCache::remove_feed: dirty only when the key was present. -/
def remove_feed (c : FeedCache) (url : String) : FeedCache :=
  { feeds := eraseFeed c.feeds url,
    dirty := c.dirty || c.feeds.any (fun p => p.1 == url) }

/-- Observation helper: the items previously cached for a url (empty when
the url is not cached), as consulted by the merge of update_feed. -/
def oldItemsOf (c : FeedCache) (url : String) : List CachedItem :=
  ((lookupFeed c.feeds url).map (fun f => f.items)).getD []

/-- Observation helper: the read flag of the first item with the given id
in the feed cached under the given url (mirrors how set_item_read and the
UI locate an item). -/
def itemRead (c : FeedCache) (url id : String) : Option Bool :=
  (lookupFeed c.feeds url).bind
    (fun f => (f.items.find? (fun i => i.id == id)).map (fun i => i.read))

/-- Model of Int comparison (chrono DateTime Ord). -/
def cmpTs (a b : Int) : Ordering :=
  if a < b then .lt else if b < a then .gt else .eq

/-- The sort_by comparator of FeedCache::prune: unread items first, then
by cached_at descending. -/
def pruneCmp (a b : CachedItem) : Ordering :=
  match a.read, b.read with
  | false, true => .lt
  | true, false => .gt
  | _, _ => cmpTs b.cached_at a.cached_at

/-- The non-strict order induced by pruneCmp; Rust's stable sort_by with a
total comparator produces exactly the stable sort by this relation. -/
def pruneLe (a b : CachedItem) : Bool :=
  pruneCmp a b != Ordering.gt

/-- The per-feed body of FeedCache::prune: sort and truncate when over the
limit; the Bool reports whether items were dropped. -/
def pruneFeed (maxItems : Nat) (f : CachedFeed) : CachedFeed × Bool :=
  if f.items.length > maxItems then
    let sorted := f.items.mergeSort pruneLe
    let kept := sorted.take maxItems
    ({ f with items := kept }, kept.length < f.items.length)
  else (f, false)

/-- FeedCache::prune. -/
def prune (c : FeedCache) (maxItems : Nat) : FeedCache :=
  { feeds := c.feeds.map (fun p => (p.1, (pruneFeed maxItems p.2).1)),
    dirty := c.dirty || c.feeds.any (fun p => (pruneFeed maxItems p.2).2) }

/-- Outcome of FeedCache::save.  `writeOk` models whether the filesystem
write succeeds; `wrote` reports whether a write was attempted and `ok`
whether save returned Ok. -/
structure SaveOutcome where
  cache : FeedCache
  wrote : Bool
  ok : Bool
deriving Repr, DecidableEq

/-- FeedCache::save: no-op when not dirty; otherwise write, and clear the
dirty flag only after the write succeeded (a failed write propagates the
error and leaves the flag set). -/
def save (c : FeedCache) (writeOk : Bool) : SaveOutcome :=
  if !c.dirty then ⟨c, false, true⟩
  else if writeOk then ⟨{ c with dirty := false }, true, true⟩
  else ⟨c, true, false⟩

/-! ## Feed configuration (src/config/data.rs), as used by the sync
engine.  Fields irrelevant to every claim (icons, theme, sync settings,
refresh interval, sync_id) are omitted. -/

/-- FeedConfig. -/
structure FeedConfig where
  name : String
  url : String
deriving Repr, DecidableEq

/-- FolderConfig. -/
structure FolderConfig where
  name : String
  expanded : Bool
  feeds : List FeedConfig
deriving Repr, DecidableEq

/-- Config: folders plus root-level feeds. -/
structure Config where
  folders : List FolderConfig
  feeds : List FeedConfig
deriving Repr, DecidableEq

/-! ## Sync types (src/sync/types.rs, src/sync/manager.rs) -/

/-- Category (folder label) of a remote subscription. -/
structure Category where
  id : String
  label : String
deriving Repr, DecidableEq

/-- Subscription, restricted to the fields the sync engine reads. -/
structure Subscription where
  id : String
  title : String
  url : String
  categories : List Category
deriving Repr, DecidableEq

/-- A link held by a stream item. -/
structure StreamItemLink where
  href : String
deriving Repr, DecidableEq

/-- StreamItem, restricted to the fields the sync engine reads. -/
structure StreamItem where
  id : String
  title : Option String
  categories : List String
  canonical : Option (List StreamItemLink)
  alternate : Option (List StreamItemLink)
deriving Repr, DecidableEq

/-- StreamItem::link(): first canonical link, else first alternate. -/
def StreamItem.link (it : StreamItem) : Option String :=
  (((it.canonical.bind List.head?).orElse
      (fun _ => it.alternate.bind List.head?))).map (fun l => l.href)

/-- The read state tag suffix checked by StreamItem::is_read. -/
def readTagEnd : String := "/state/com.google/read"

/-- StreamItem::is_read(): some category ends with the read state tag. -/
def streamItemRead (it : StreamItem) : Bool :=
  it.categories.any (fun c => trailsWith readTagEnd.data c.data)

/-- SyncResult. -/
structure SyncResult where
  feeds_imported : Nat
  feeds_existing : Nat
  items_marked_read : Nat
  items_synced_to_server : Nat
  errors : List String
deriving Repr, DecidableEq

/-- i64::to_string, used to turn a normalized item id into the decimal
form held in the read-ID set. -/
def intToDecStr (i : Int) : String :=
  if i < 0 then String.mk ['-'] ++ decStr (-i).toNat
  else decStr i.toNat
where
  /-- Unpadded decimal digits of n (n < 10^20 always holds for i64). -/
  decStr (n : Nat) : String :=
    match stripZeros (digitsBE 10 20 n) with
    | [] => String.mk ['0']
    | ds => String.mk (ds.map Nat.digitChar)

/-- The error string pushed when a feed's stream contents fetch fails. -/
def fetchErr (whom e : String) : String :=
  "Failed to fetch " ++ whom ++ ": " ++ e

/-- The error string pushed when the batched mark-read call fails. -/
def markErr (e : String) : String :=
  "Failed to mark read on server: " ++ e

/-! ## Phase 2 — pull read-state from the server
(SyncManager::sync_read_states_from_server).  The remote calls are
modelled as data: `readIds` is the list of ItemRef ids returned by the
read-stream query, and `fetch` maps a stream id to the items of its
stream-contents response or to the error string of a failed call. -/

/-- The per-item body of phase 2: normalize the remote id, test
membership in the read set, and when the item carries a link mark the
recomputed local identity read in the cache, counting it. -/
def phase2Item (readIds : List String) (url : String)
    (st : FeedCache × Nat) (item : StreamItem) : FeedCache × Nat :=
  match parse_item_id item.id with
  | none => st
  | some d =>
    if readIds.contains (intToDecStr d) then
      match item.link with
      | some l =>
        (set_item_read st.1 url (generate_id (some l) (item.title.getD "")) true, st.2 + 1)
      | none => st
    else st

/-- The per-subscription body of phase 2: a failed fetch appends an error
and skips the feed; a successful fetch folds phase2Item over its items. -/
def phase2Sub (readIds : List String) (fetch : String → Except String (List StreamItem))
    (st : FeedCache × Nat × List String) (sub : Subscription) :
    FeedCache × Nat × List String :=
  match fetch sub.id with
  | .error e => (st.1, st.2.1, st.2.2 ++ [fetchErr sub.title e])
  | .ok items =>
    let p := items.foldl (phase2Item readIds sub.url) (st.1, st.2.1)
    (p.1, p.2, st.2.2)

/-- SyncManager::sync_read_states_from_server. -/
def sync_read_states_from_server (readIds : List String) (subs : List Subscription)
    (fetch : String → Except String (List StreamItem)) (cache : FeedCache) :
    FeedCache × SyncResult :=
  let st := subs.foldl (phase2Sub readIds fetch) (cache, 0, [])
  (st.1,
   { feeds_imported := 0, feeds_existing := 0, items_marked_read := st.2.1,
     items_synced_to_server := 0, errors := st.2.2 })

/-! ## Phase 3 — push read-state to the server
(SyncManager::sync_read_states_to_server).  `fetch` is as in phase 2 and
`markOk` models the edit_tag mark-read call on a batch of remote ids. -/

/-- The feed URLs known to the configuration, folder feeds first then
root feeds (the feed_urls vector of phase 3 and the existing_urls set of
phase 1 both enumerate exactly these). -/
def configUrls (config : Config) : List String :=
  (config.folders.flatMap (fun f => f.feeds.map (fun fd => fd.url))) ++
    config.feeds.map (fun fd => fd.url)

/-- url_to_feed_id lookup: HashMap collect keeps the last binding for a
duplicated url. -/
def lookupFeedId (subs : List Subscription) (url : String) : Option String :=
  (subs.reverse.find? (fun s => s.url == url)).map (fun s => s.id)

/-- The to_mark_read collection loop of phase 3: remote items not read on
the server whose recomputed local identity is cached and read locally. -/
def collectToMark (cached : CachedFeed) (serverItems : List StreamItem) : List String :=
  serverItems.foldl
    (fun acc si =>
      if streamItemRead si then acc
      else
        match si.link with
        | none => acc
        | some l =>
          let lid := generate_id (some l) (si.title.getD "")
          match cached.items.find? (fun i => i.id == lid) with
          | some li => if li.read then acc ++ [si.id] else acc
          | none => acc)
    []

/-- The per-feed-url body of phase 3. -/
def phase3Feed (cache : FeedCache) (subs : List Subscription)
    (fetch : String → Except String (List StreamItem))
    (markOk : List String → Except String Unit)
    (st : Nat × List String) (feedUrl : String) : Nat × List String :=
  match lookupFeed cache.feeds feedUrl with
  | none => st
  | some cached =>
    match lookupFeedId subs feedUrl with
    | none => st
    | some feedId =>
      match fetch feedId with
      | .error e => (st.1, st.2 ++ [fetchErr feedUrl e])
      | .ok serverItems =>
        let toMark := collectToMark cached serverItems
        if toMark.isEmpty then st
        else
          match markOk toMark with
          | .ok _ => (st.1 + toMark.length, st.2)
          | .error e => (st.1, st.2 ++ [markErr e])

/-- SyncManager::sync_read_states_to_server. -/
def sync_read_states_to_server (cache : FeedCache) (config : Config)
    (subs : List Subscription) (fetch : String → Except String (List StreamItem))
    (markOk : List String → Except String Unit) : SyncResult :=
  let st := (configUrls config).foldl (phase3Feed cache subs fetch markOk) (0, [])
  { feeds_imported := 0, feeds_existing := 0, items_marked_read := 0,
    items_synced_to_server := st.1, errors := st.2 }

/-! ## Phase 1 — import subscriptions (SyncManager::import_subscriptions) -/

/-- Membership of a url among the folders' feeds. -/
def folderHasUrl (folders : List FolderConfig) (u : String) : Bool :=
  folders.any (fun f => f.feeds.any (fun fd => fd.url == u))

/-- Membership of a url in the existing_urls set (folder feeds plus root
feeds). -/
def urlKnown (config : Config) (u : String) : Bool :=
  folderHasUrl config.folders u || config.feeds.any (fun fd => fd.url == u)

/-- Append a (url, name) pair to its category group, creating the group
on first sight (the by_category HashMap, in first-seen order). -/
def addToGroup : List (String × List (String × String)) → String → String × String →
    List (String × List (String × String))
  | [], k, v => [(k, [v])]
  | q :: t, k, v =>
    if q.1 == k then (q.1, q.2 ++ [v]) :: t else q :: addToGroup t k v

/-- One iteration of the grouping loop of import_subscriptions: an
already-known url only bumps the feeds_existing counter; otherwise the
(url, title) pair joins its first category's group, or the root list when
the subscription has no category. -/
def partitionStep (config : Config)
    (st : List (String × List (String × String)) × List (String × String) × Nat)
    (sub : Subscription) :
    List (String × List (String × String)) × List (String × String) × Nat :=
  if urlKnown config sub.url then (st.1, st.2.1, st.2.2 + 1)
  else
    match sub.categories.head? with
    | some cat => (addToGroup st.1 cat.label (sub.url, sub.title), st.2.1, st.2.2)
    | none => (st.1, st.2.1 ++ [(sub.url, sub.title)], st.2.2)

/-- The grouping loop of import_subscriptions: split the subscriptions
into category groups and root feeds, counting the already-known ones. -/
def partitionSubs (config : Config) (subs : List Subscription) :
    List (String × List (String × String)) × List (String × String) × Nat :=
  subs.foldl (partitionStep config) ([], [], 0)

/-- Models Rust's str::eq_ignore_ascii_case. -/
def eqIgnoreAsciiCase (a b : String) : Bool :=
  a.data.map lowerAscii == b.data.map lowerAscii
where
  lowerAscii (c : Char) : Char :=
    if 'A' ≤ c ∧ c ≤ 'Z' then Char.ofNat (c.toNat + 32) else c

/-- Insert one category group into the folder list: append to the first
case-insensitive name match, or create a new expanded folder. -/
def addFeedsToFolders (folders : List FolderConfig) (category : String)
    (fs : List (String × String)) : List FolderConfig :=
  match folders with
  | [] => [{ name := category, expanded := true,
             feeds := fs.map (fun p => { name := p.2, url := p.1 }) }]
  | f :: t =>
    if eqIgnoreAsciiCase f.name category then
      { f with feeds := f.feeds ++ fs.map (fun p => { name := p.2, url := p.1 }) } :: t
    else
      f :: addFeedsToFolders t category fs

/-- SyncManager::import_subscriptions.  The HashMap iteration over
category groups is modelled in first-seen order; the claims proved about
the result are independent of that order. -/
def import_subscriptions (config : Config) (subs : List Subscription) :
    Config × SyncResult :=
  let part := partitionSubs config subs
  let folders2 := part.1.foldl (fun fl g => addFeedsToFolders fl g.1 g.2) config.folders
  let imported := part.1.foldl (fun n g => n + g.2.length) 0 + part.2.1.length
  ({ folders := folders2,
     feeds := config.feeds ++ part.2.1.map (fun p => { name := p.2, url := p.1 }) },
   { feeds_imported := imported, feeds_existing := part.2.2, items_marked_read := 0,
     items_synced_to_server := 0, errors := [] })

/-! # Lemmas and claim theorems -/

/-! ## Codec lemmas (claim C2) -/

theorem digitChar_facts : ∀ d : Nat, d < 16 →
    hexVal? (Nat.digitChar d) = some d ∧
    Nat.digitChar d ≠ '+' ∧ Nat.digitChar d ≠ '-' ∧
    isHexChar (Nat.digitChar d) = true := by decide

theorem digitsBE_lt (b : Nat) (hb : 0 < b) :
    ∀ (k n : Nat), ∀ d ∈ digitsBE b k n, d < b := by
  intro k
  induction k with
  | zero => intro n d hd; simp [digitsBE] at hd
  | succ k ih =>
    intro n d hd
    simp only [digitsBE, List.mem_append, List.mem_singleton] at hd
    rcases hd with hd | hd
    · exact ih _ d hd
    · subst hd; exact Nat.mod_lt _ hb

theorem length_digitsBE (b : Nat) : ∀ (k n : Nat), (digitsBE b k n).length = k := by
  intro k
  induction k with
  | zero => intro n; rfl
  | succ k ih => intro n; simp [digitsBE, ih]

theorem foldl_digitsBE (b : Nat) :
    ∀ (k n a : Nat),
      (digitsBE b k n).foldl (fun x d => b * x + d) a = a * b ^ k + n % b ^ k := by
  intro k
  induction k with
  | zero => intro n a; simp [digitsBE, Nat.mod_one]
  | succ k ih =>
    intro n a
    simp only [digitsBE, List.foldl_append, List.foldl_cons, List.foldl_nil, ih]
    rw [pow_succ', Nat.mod_mul]
    ring

theorem digitsValFrom_map_digitChar :
    ∀ (ds : List Nat), (∀ d ∈ ds, d < 16) → ∀ (a : Nat),
      digitsValFrom 16 hexVal? (some a) (ds.map Nat.digitChar) =
        some (ds.foldl (fun x d => 16 * x + d) a) := by
  intro ds
  induction ds with
  | nil => intro _ a; rfl
  | cons d t ih =>
    intro h a
    have hd : d < 16 := h d (List.mem_cons_self d t)
    have ht : ∀ x ∈ t, x < 16 := fun x hx => h x (List.mem_cons_of_mem d hx)
    simp only [List.map_cons, digitsValFrom, List.foldl_cons,
      (digitChar_facts d hd).1, List.foldl_nil]
    exact ih ht (16 * a + d)

theorem fromStrRadix16_digits (ds : List Nat) (h : ∀ d ∈ ds, d < 16) (hne : ds ≠ []) :
    fromStrRadix 16 hexVal? (ds.map Nat.digitChar) =
      if ds.foldl (fun x d => 16 * x + d) 0 ≤ 2 ^ 63 - 1
      then some ((ds.foldl (fun x d => 16 * x + d) 0 : Nat) : Int)
      else none := by
  match ds, hne with
  | d :: t, _ =>
    have hd : d < 16 := h d (List.mem_cons_self d t)
    have hfacts := digitChar_facts d hd
    have hsign : ¬ (Nat.digitChar d = '+' ∨ Nat.digitChar d = '-') := by
      rintro (hc | hc)
      · exact hfacts.2.1 hc
      · exact hfacts.2.2.1 hc
    have hval : digitsVal 16 hexVal? (Nat.digitChar d :: t.map Nat.digitChar) =
        some ((d :: t).foldl (fun x d => 16 * x + d) 0) := by
      have := digitsValFrom_map_digitChar (d :: t) h 0
      simpa [digitsVal] using this
    simp only [List.map_cons]
    simp only [fromStrRadix]
    rw [if_neg hsign, hval]

theorem leadsWith_append (ps rest : List Char) : leadsWith ps (ps ++ rest) = true := by
  induction ps with
  | nil => rfl
  | cons p t ih => simp [leadsWith, ih]

theorem leadsWith_length_le :
    ∀ (ps cs : List Char), leadsWith ps cs = true → ps.length ≤ cs.length := by
  intro ps
  induction ps with
  | nil => intro cs _; simp
  | cons p t ih =>
    intro cs h
    match cs with
    | [] => simp [leadsWith] at h
    | c :: cs' =>
      simp only [leadsWith, Bool.and_eq_true] at h
      simpa [Nat.succ_le_succ_iff] using ih cs' h.2

theorem length_hex16 (x : Int) : (hex16 x).length = 16 := by
  simp [hex16, length_digitsBE]

theorem parse_format_long (x : Int) :
    parse_item_id (format_item_id_long x) =
      if (x % (2 : Int) ^ 64).toNat ≤ 2 ^ 63 - 1
      then some (((x % (2 : Int) ^ 64).toNat : Nat) : Int)
      else none := by
  have hdata : (format_item_id_long x).data = longTag.data ++ hex16 x := by
    simp [format_item_id_long, String.data_append]
  have hlt : ∀ d ∈ digitsBE 16 16 (x % (2 : Int) ^ 64).toNat, d < 16 :=
    digitsBE_lt 16 (by norm_num) 16 _
  have hne : digitsBE 16 16 (x % (2 : Int) ^ 64).toNat ≠ [] := by
    intro hcon
    have := length_digitsBE 16 16 (x % (2 : Int) ^ 64).toNat
    rw [hcon] at this
    simp at this
  unfold parse_item_id
  rw [hdata, leadsWith_append, if_pos rfl, List.drop_left]
  unfold hex16
  rw [fromStrRadix16_digits _ hlt hne, foldl_digitsBE]
  have hnlt : (x % (2 : Int) ^ 64).toNat < 16 ^ 16 := by
    have h1 : x % (2 : Int) ^ 64 < 2 ^ 64 := Int.emod_lt_of_pos x (by norm_num)
    have h2 : ((2 : Int) ^ 64) = 18446744073709551616 := by norm_num
    have h3 : (16 : Nat) ^ 16 = 18446744073709551616 := by norm_num
    rw [h2] at h1
    rw [h3]
    omega
  rw [Nat.zero_mul, Nat.zero_add, Nat.mod_eq_of_lt hnlt]

theorem parse_format_short (x : Int) :
    parse_item_id (format_item_id_short x) =
      if (x % (2 : Int) ^ 64).toNat ≤ 2 ^ 63 - 1
      then some (((x % (2 : Int) ^ 64).toNat : Nat) : Int)
      else none := by
  have hdata : (format_item_id_short x).data = hex16 x := by
    simp only [format_item_id_short, String.data]
  have hlt : ∀ d ∈ digitsBE 16 16 (x % (2 : Int) ^ 64).toNat, d < 16 :=
    digitsBE_lt 16 (by norm_num) 16 _
  have hne : digitsBE 16 16 (x % (2 : Int) ^ 64).toNat ≠ [] := by
    intro hcon
    have := length_digitsBE 16 16 (x % (2 : Int) ^ 64).toNat
    rw [hcon] at this
    simp at this
  have hnotlong : ¬ leadsWith longTag.data (hex16 x) = true := by
    intro hcon
    have hle := leadsWith_length_le _ _ hcon
    rw [length_hex16] at hle
    have h33 : longTag.data.length = 32 := rfl
    omega
  have hall : (hex16 x).all isHexChar = true := by
    simp only [hex16, List.all_eq_true]
    intro c hc
    obtain ⟨d, hd, rfl⟩ := List.mem_map.mp hc
    exact (digitChar_facts d (hlt d hd)).2.2.2
  unfold parse_item_id
  rw [hdata, if_neg hnotlong, if_pos (by simp [length_hex16, hall])]
  unfold hex16
  rw [fromStrRadix16_digits _ hlt hne, foldl_digitsBE]
  have hnlt : (x % (2 : Int) ^ 64).toNat < 16 ^ 16 := by
    have h1 : x % (2 : Int) ^ 64 < 2 ^ 64 := Int.emod_lt_of_pos x (by norm_num)
    have h2 : ((2 : Int) ^ 64) = 18446744073709551616 := by norm_num
    have h3 : (16 : Nat) ^ 16 = 18446744073709551616 := by norm_num
    rw [h2] at h1
    rw [h3]
    omega
  rw [Nat.zero_mul, Nat.zero_add, Nat.mod_eq_of_lt hnlt]

/-- C2, counterexample: the claim asserts the long-form round-trip for
every representable i64, but for the negative value -1 the formatted hex
denotes 2^64 - 1, which overflows i64::from_str_radix, so parse_item_id
returns None rather than Some(-1). -/
theorem c2_long_roundtrip_counterexample :
    parse_item_id (format_item_id_long (-1)) ≠ some (-1) ∧
    parse_item_id (format_item_id_long (-1)) = none := by
  have h : parse_item_id (format_item_id_long (-1)) = none := by
    rw [parse_format_long]
    norm_num
  exact ⟨by rw [h]; exact fun hcon => Option.noConfusion hcon, h⟩

/-- C2, amended: for every representable nonnegative i64 value x both the
long and the short round-trip hold; for negative representable x the
long-form parse returns None (the hex suffix denotes a value above
i64::MAX).  parse_item_id tries the long prefixed hex form, then the
16-character hex form, then decimal, in that order, as in its
definition. -/
theorem c2_roundtrip (x : Int) (h1 : -(2 ^ 63) ≤ x) (h2 : x < 2 ^ 63) :
    (0 ≤ x →
      parse_item_id (format_item_id_long x) = some x ∧
      parse_item_id (format_item_id_short x) = some x) ∧
    (x < 0 → parse_item_id (format_item_id_long x) = none) := by
  have e63 : ((2 : Int) ^ 63) = 9223372036854775808 := by norm_num
  have e64 : ((2 : Int) ^ 64) = 18446744073709551616 := by norm_num
  constructor
  · intro hx
    have hmod : x % (2 : Int) ^ 64 = x := by
      apply Int.emod_eq_of_lt hx
      omega
    have hle : (x % (2 : Int) ^ 64).toNat ≤ 2 ^ 63 - 1 := by
      rw [hmod]
      omega
    have hback : (((x % (2 : Int) ^ 64).toNat : Nat) : Int) = x := by
      rw [hmod]
      exact Int.toNat_of_nonneg hx
    constructor
    · rw [parse_format_long, if_pos hle, hback]
    · rw [parse_format_short, if_pos hle, hback]
  · intro hx
    have hmod : x % (2 : Int) ^ 64 = x + 2 ^ 64 := by
      have h4 : (x + 2 ^ 64 * 1) % (2 : Int) ^ 64 = x % (2 : Int) ^ 64 :=
        Int.add_mul_emod_self_left x ((2 : Int) ^ 64) 1
      have h5 : (x + (2 : Int) ^ 64) % (2 : Int) ^ 64 = x + 2 ^ 64 := by
        apply Int.emod_eq_of_lt <;> omega
      rw [mul_one] at h4
      rw [← h4, h5]
    have hgt : ¬ (x % (2 : Int) ^ 64).toNat ≤ 2 ^ 63 - 1 := by
      rw [hmod]
      omega
    rw [parse_format_long, if_neg hgt]

/-- C2, witness: the amended round-trip at the concrete value 31. -/
theorem c2_roundtrip_witness :
    parse_item_id (format_item_id_long 31) = some 31 ∧
    parse_item_id (format_item_id_short 31) = some 31 :=
  (c2_roundtrip 31 (by norm_num) (by norm_num)).1 (by norm_num)

/-! ## Item identity (claim C4) -/

/-- C4, counterexample: with a present-but-empty link the code hashes the
empty link string, whereas the claim prescribes hashing the title (as the
spec-worded generate_id_specNonempty does); at link = Some "" and
title = "t" the two ids differ. -/
theorem c4_empty_link_counterexample :
    generate_id (some "") "t" ≠ generate_id_specNonempty (some "") "t" ∧
    generate_id_specNonempty (some "") "t" = generate_id none "t" := by
  constructor
  · decide
  · rfl

/-- C4, amended: generate_id hashes the link exactly when the link is
present — including a present empty link — and hashes the title only when
the link is absent; it is a pure function, so when a link is present the
id does not depend on the title at all. -/
theorem c4_generate_id_structure (link : Option String) (title title2 : String) :
    (link = none → generate_id link title = String.mk (hexUnpadded (hashStr title))) ∧
    (∀ l, link = some l → generate_id link title = String.mk (hexUnpadded (hashStr l))) ∧
    (∀ l, link = some l → generate_id link title = generate_id link title2) := by
  refine ⟨?_, ?_, ?_⟩
  · intro h; subst h; rfl
  · intro l h; subst h; rfl
  · intro l h; subst h; rfl

/-- C4, witness: the amended statement at concrete inputs; in particular
the id of a linked item is independent of its title. -/
theorem c4_generate_id_structure_witness :
    generate_id (some "https://a.example/x") "title one" =
      generate_id (some "https://a.example/x") "title two" :=
  (c4_generate_id_structure (some "https://a.example/x") "title one" "title two").2.2
    "https://a.example/x" rfl

/-! ## Offline cache association-list lemmas -/

theorem lookupFeed_setFeed_self :
    ∀ (feeds : List (String × CachedFeed)) (url : String) (f : CachedFeed),
      lookupFeed (setFeed feeds url f) url = some f := by
  intro feeds url f
  induction feeds with
  | nil => simp [setFeed, lookupFeed]
  | cons p t ih =>
    by_cases h : p.1 == url
    · simp [setFeed, h, lookupFeed]
    · simp only [setFeed, h, if_false, Bool.false_eq_true]
      simpa [lookupFeed, List.find?, h] using ih

theorem setFeed_of_lookup_eq :
    ∀ (feeds : List (String × CachedFeed)) (url : String) (f : CachedFeed),
      lookupFeed feeds url = some f → setFeed feeds url f = feeds := by
  intro feeds url f
  induction feeds with
  | nil => intro h; simp [lookupFeed] at h
  | cons p t ih =>
    intro h
    by_cases hp : p.1 == url
    · have hurl : p.1 = url := by simpa using hp
      have hf : f = p.2 := by
        simp [lookupFeed, List.find?, hp] at h
        exact h.symm
      simp [setFeed, hp, hf, ← hurl]
    · simp only [lookupFeed, List.find?, hp] at h
      simp only [setFeed, hp, if_false, Bool.false_eq_true]
      rw [ih (by simpa [lookupFeed] using h)]

theorem lookupFeed_setFeed_ne :
    ∀ (feeds : List (String × CachedFeed)) (url u : String) (f : CachedFeed),
      u ≠ url → lookupFeed (setFeed feeds url f) u = lookupFeed feeds u := by
  intro feeds url u f hne
  induction feeds with
  | nil =>
    simp [setFeed, lookupFeed, List.find?, show ¬ (url == u) = true by simpa using fun h => hne h.symm]
  | cons p t ih =>
    by_cases h : p.1 == url
    · have hp1 : p.1 = url := by simpa using h
      simp [setFeed, h, lookupFeed, List.find?,
        show ¬ (url == u) = true by simpa using fun hh => hne hh.symm, hp1]
    · simp only [setFeed, h, if_false, Bool.false_eq_true]
      by_cases h2 : p.1 == u
      · simp [lookupFeed, List.find?, h2]
      · simpa [lookupFeed, List.find?, h2] using ih

theorem mergeItem_id (olds : List CachedItem) (it : CachedItem) :
    (mergeItem olds it).id = it.id := by
  unfold mergeItem
  cases oldReadState olds it.id <;> rfl

/-- A Forall₂ between a mapped list and the original from a pointwise
fact. -/
theorem forall2_map_self {α : Type} (g : α → α) (P : α → α → Prop) :
    ∀ (l : List α), (∀ a ∈ l, P (g a) a) → List.Forall₂ P (l.map g) l := by
  intro l
  induction l with
  | nil => intro _; exact List.Forall₂.nil
  | cons a t ih =>
    intro h
    exact List.Forall₂.cons (h a (List.mem_cons_self a t))
      (ih fun x hx => h x (List.mem_cons_of_mem a hx))

theorem old_items_getD (c : FeedCache) (url name : String) :
    ((lookupFeed c.feeds url).getD
      { url := url, name := name, items := [], last_fetched := none,
        last_error := none }).items = oldItemsOf c url := by
  cases h : lookupFeed c.feeds url <;> simp [oldItemsOf, h]

/-- C1: update_feed with no error sets last_fetched to now, clears
last_error, and replaces the feed's item list with exactly the incoming
list: ids match the incoming list positionally, every descriptive field
comes from the incoming item, an incoming item whose id was previously
present carries the old read flag, any other incoming item keeps its own
read flag, and old items whose id is absent from the incoming list are
gone. -/
theorem c1_update_feed_merge (c : FeedCache) (url name : String)
    (items : List CachedItem) (now : Int) :
    ∃ f2, lookupFeed (update_feed c url name items none now).feeds url = some f2 ∧
      f2.last_fetched = some now ∧
      f2.last_error = none ∧
      f2.items.map (fun i => i.id) = items.map (fun i => i.id) ∧
      List.Forall₂
        (fun nit inc =>
          nit.id = inc.id ∧ nit.title = inc.title ∧ nit.link = inc.link ∧
          nit.published = inc.published ∧ nit.summary = inc.summary ∧
          nit.cached_at = inc.cached_at ∧
          ((∃ o ∈ oldItemsOf c url, o.id = inc.id ∧ nit.read = o.read) ∨
           ((∀ o ∈ oldItemsOf c url, o.id ≠ inc.id) ∧ nit.read = inc.read)))
        f2.items items ∧
      (∀ o ∈ oldItemsOf c url, (∀ inc ∈ items, inc.id ≠ o.id) →
        ∀ nit ∈ f2.items, nit.id ≠ o.id) := by
  simp only [update_feed, Option.isNone_none, if_pos]
  rw [old_items_getD c url name]
  refine ⟨_, lookupFeed_setFeed_self _ _ _, rfl, rfl, ?_, ?_, ?_⟩
  · rw [List.map_map]
    apply List.map_congr_left
    intro it _
    exact mergeItem_id (oldItemsOf c url) it
  · apply forall2_map_self
    intro it _
    rcases h : oldReadState (oldItemsOf c url) it.id with _ | r
    · have hnone : ∀ o ∈ oldItemsOf c url, o.id ≠ it.id := by
        have hfind : (oldItemsOf c url).reverse.find? (fun i => i.id == it.id) = none := by
          unfold oldReadState at h
          exact Option.map_eq_none'.mp h
        intro o ho hcon
        have := List.find?_eq_none.mp hfind o (List.mem_reverse.mpr ho)
        simp [hcon] at this
      have hm : mergeItem (oldItemsOf c url) it = it := by simp [mergeItem, h]
      rw [hm]
      exact ⟨rfl, rfl, rfl, rfl, rfl, rfl, Or.inr ⟨hnone, rfl⟩⟩
    · have hmap : ((oldItemsOf c url).reverse.find? (fun i => i.id == it.id)).map
          (fun i => i.read) = some r := h
      rcases Option.map_eq_some'.mp hmap with ⟨o, hfind, hor⟩
      have ho : o ∈ oldItemsOf c url := List.mem_reverse.mp (List.mem_of_find?_eq_some hfind)
      have hid : o.id = it.id := by simpa using List.find?_some hfind
      have hm : mergeItem (oldItemsOf c url) it = { it with read := r } := by
        simp [mergeItem, h]
      rw [hm]
      exact ⟨rfl, rfl, rfl, rfl, rfl, rfl, Or.inl ⟨o, ho, hid, hor.symm⟩⟩
  · intro o ho hnone nit hnit
    rcases List.mem_map.mp hnit with ⟨inc, hinc, rfl⟩
    rw [mergeItem_id]
    exact hnone inc hinc

/-- C1, witness: the merge shape at a concrete cache and item list. -/
theorem c1_update_feed_merge_witness :
    ∃ f2, lookupFeed (update_feed ⟨[], false⟩ "u" "n" [] none 7).feeds "u" = some f2 ∧
      f2.last_fetched = some 7 ∧
      f2.last_error = none ∧
      f2.items.map (fun i => i.id) = ([] : List CachedItem).map (fun i => i.id) ∧
      List.Forall₂
        (fun nit inc =>
          nit.id = inc.id ∧ nit.title = inc.title ∧ nit.link = inc.link ∧
          nit.published = inc.published ∧ nit.summary = inc.summary ∧
          nit.cached_at = inc.cached_at ∧
          ((∃ o ∈ oldItemsOf ⟨[], false⟩ "u", o.id = inc.id ∧ nit.read = o.read) ∨
           ((∀ o ∈ oldItemsOf ⟨[], false⟩ "u", o.id ≠ inc.id) ∧ nit.read = inc.read)))
        f2.items ([] : List CachedItem) ∧
      (∀ o ∈ oldItemsOf ⟨[], false⟩ "u", (∀ inc ∈ ([] : List CachedItem), inc.id ≠ o.id) →
        ∀ nit ∈ f2.items, nit.id ≠ o.id) :=
  c1_update_feed_merge ⟨[], false⟩ "u" "n" [] 7

/-- C3: update_feed with an error on an already-cached feed records the
error as last_error and leaves the feed's items and last_fetched
untouched. -/
theorem c3_update_feed_error_frame (c : FeedCache) (url name : String)
    (items : List CachedItem) (e : String) (now : Int) (f : CachedFeed)
    (h : lookupFeed c.feeds url = some f) :
    ∃ f2, lookupFeed (update_feed c url name items (some e) now).feeds url = some f2 ∧
      f2.items = f.items ∧ f2.last_fetched = f.last_fetched ∧
      f2.last_error = some e := by
  simp only [update_feed, h, Option.getD_some, Option.isNone_some, Bool.false_eq_true,
    if_false]
  exact ⟨_, lookupFeed_setFeed_self _ _ _, rfl, rfl, rfl⟩

/-- C3, witness: at a concrete one-feed cache. -/
theorem c3_update_feed_error_frame_witness :
    ∃ f2, lookupFeed (update_feed ⟨[("u", ⟨"u", "n", [], some 3, none⟩)], false⟩
        "u" "m" [] (some "boom") 9).feeds "u" = some f2 ∧
      f2.items = (⟨"u", "n", [], some 3, none⟩ : CachedFeed).items ∧
      f2.last_fetched = (⟨"u", "n", [], some 3, none⟩ : CachedFeed).last_fetched ∧
      f2.last_error = some "boom" :=
  c3_update_feed_error_frame ⟨[("u", ⟨"u", "n", [], some 3, none⟩)], false⟩
    "u" "m" [] "boom" 9 ⟨"u", "n", [], some 3, none⟩ rfl

/-! ## No-op operations (claim C10) -/

theorem setReadInList_not_found :
    ∀ (items : List CachedItem) (id : String) (r : Bool),
      (∀ i ∈ items, i.id ≠ id) → setReadInList items id r = (items, false) := by
  intro items id r
  induction items with
  | nil => intro _; rfl
  | cons i t ih =>
    intro h
    have hi : ¬ (i.id == id) = true := by
      simpa using h i (List.mem_cons_self i t)
    simp only [setReadInList, hi, if_false, Bool.false_eq_true,
      ih fun x hx => h x (List.mem_cons_of_mem i hx)]

theorem eraseFeed_absent :
    ∀ (feeds : List (String × CachedFeed)) (url : String),
      (∀ p ∈ feeds, p.1 ≠ url) → eraseFeed feeds url = feeds := by
  intro feeds url
  induction feeds with
  | nil => intro _; rfl
  | cons p t ih =>
    intro h
    have hp : ¬ (p.1 == url) = true := by
      simpa using h p (List.mem_cons_self p t)
    simp only [eraseFeed, hp, if_false, Bool.false_eq_true,
      ih fun x hx => h x (List.mem_cons_of_mem p hx)]

theorem lookupFeed_none_iff (feeds : List (String × CachedFeed)) (url : String) :
    lookupFeed feeds url = none ↔ ∀ p ∈ feeds, p.1 ≠ url := by
  constructor
  · intro h p hp
    have := List.find?_eq_none.mp (Option.map_eq_none'.mp h) p hp
    simpa using this
  · intro h
    apply Option.map_eq_none'.mpr
    apply List.find?_eq_none.mpr
    intro p hp
    simpa using h p hp

/-- C10: set_item_read on an absent feed or an absent item id,
mark_feed_read on an absent feed, and remove_feed on an absent feed all
return the cache completely unchanged, dirty flag included. -/
theorem c10_absent_noops :
    (∀ (c : FeedCache) (url id : String) (r : Bool),
      lookupFeed c.feeds url = none → set_item_read c url id r = c) ∧
    (∀ (c : FeedCache) (url id : String) (r : Bool) (f : CachedFeed),
      lookupFeed c.feeds url = some f → (∀ i ∈ f.items, i.id ≠ id) →
      set_item_read c url id r = c) ∧
    (∀ (c : FeedCache) (url : String),
      lookupFeed c.feeds url = none → mark_feed_read c url = c) ∧
    (∀ (c : FeedCache) (url : String),
      lookupFeed c.feeds url = none → remove_feed c url = c) := by
  refine ⟨?_, ?_, ?_, ?_⟩
  · intro c url id r h
    simp [set_item_read, h]
  · intro c url id r f h hid
    simp only [set_item_read, h, setReadInList_not_found f.items id r hid,
      Bool.or_false]
    rw [show ({ f with items := f.items } : CachedFeed) = f from rfl,
      setFeed_of_lookup_eq c.feeds url f h]
  · intro c url h
    simp [mark_feed_read, h]
  · intro c url h
    have habs : ∀ p ∈ c.feeds, p.1 ≠ url := (lookupFeed_none_iff c.feeds url).mp h
    have hany : c.feeds.any (fun p => p.1 == url) = false := by
      apply List.any_eq_false.mpr
      intro p hp
      simpa using habs p hp
    simp [remove_feed, hany, eraseFeed_absent c.feeds url habs]

/-- C10, witness: all four no-ops on a concrete one-feed cache. -/
theorem c10_absent_noops_witness :
    set_item_read ⟨[("u", ⟨"u", "n", [], none, none⟩)], false⟩ "v" "i" true =
      ⟨[("u", ⟨"u", "n", [], none, none⟩)], false⟩ ∧
    set_item_read ⟨[("u", ⟨"u", "n", [], none, none⟩)], false⟩ "u" "i" true =
      ⟨[("u", ⟨"u", "n", [], none, none⟩)], false⟩ ∧
    mark_feed_read ⟨[("u", ⟨"u", "n", [], none, none⟩)], false⟩ "v" =
      ⟨[("u", ⟨"u", "n", [], none, none⟩)], false⟩ ∧
    remove_feed ⟨[("u", ⟨"u", "n", [], none, none⟩)], false⟩ "v" =
      ⟨[("u", ⟨"u", "n", [], none, none⟩)], false⟩ :=
  ⟨c10_absent_noops.1 _ "v" "i" true rfl,
   c10_absent_noops.2.1 _ "u" "i" true ⟨"u", "n", [], none, none⟩ rfl (by simp),
   c10_absent_noops.2.2.1 _ "v" rfl,
   c10_absent_noops.2.2.2 _ "v" rfl⟩

/-! ## Dirty flag and save (claim C6) -/

theorem setReadInList_unchanged :
    ∀ (items : List CachedItem) (id : String) (r : Bool),
      (setReadInList items id r).2 = false → (setReadInList items id r).1 = items := by
  intro items id r
  induction items with
  | nil => intro _; rfl
  | cons i t ih =>
    intro h
    by_cases hi : (i.id == id) = true
    · by_cases hr : (i.read != r) = true
      · simp [setReadInList, hi, hr] at h
      · simp [setReadInList, hi, hr]
    · simp only [setReadInList, hi, if_false, Bool.false_eq_true] at h ⊢
      rw [ih h]

theorem markReadAll_unchanged :
    ∀ (items : List CachedItem),
      (markReadAll items).2 = false → (markReadAll items).1 = items := by
  intro items
  induction items with
  | nil => intro _; rfl
  | cons i t ih =>
    intro h
    by_cases hi : i.read = true
    · simp only [markReadAll, hi, if_true] at h ⊢
      rw [ih h]
    · simp [markReadAll, hi] at h

/-- A map by a pointwise-identity function is the identity. -/
theorem map_eq_self_of_forall {α : Type} (g : α → α) :
    ∀ (l : List α), (∀ a ∈ l, g a = a) → l.map g = l := by
  intro l
  induction l with
  | nil => intro _; rfl
  | cons a t ih =>
    intro h
    simp only [List.map_cons]
    rw [h a (List.mem_cons_self a t), ih fun x hx => h x (List.mem_cons_of_mem a hx)]

theorem pruneFeed_unchanged (maxItems : Nat) (f : CachedFeed) :
    (pruneFeed maxItems f).2 = false → (pruneFeed maxItems f).1 = f := by
  intro h
  by_cases hgt : f.items.length > maxItems
  · exfalso
    have hlen : ((f.items.mergeSort pruneLe).take maxItems).length < f.items.length := by
      rw [List.length_take, List.length_mergeSort]
      omega
    simp [pruneFeed, hgt, hlen] at h
  · simp [pruneFeed, hgt]

/-- C6, counterexample: re-reporting the same fetch error through
update_feed leaves the in-memory state exactly as it was after the last
durable write (dirty was false), yet sets the dirty flag — so dirty being
true does not imply the state differs from the last durable write. -/
theorem c6_dirty_iff_counterexample :
    (update_feed ⟨[("u", ⟨"u", "n", [], none, some "e"⟩)], false⟩
        "u" "n" [] (some "e") 0).feeds =
      [("u", ⟨"u", "n", [], none, some "e"⟩)] ∧
    (update_feed ⟨[("u", ⟨"u", "n", [], none, some "e"⟩)], false⟩
        "u" "n" [] (some "e") 0).dirty = true := by
  constructor
  · rfl
  · rfl

/-- C6, amended: save() is a no-op when dirty is false; with dirty set it
clears the flag only after a successful write, and a failed write leaves
the cache (flag included) unchanged and reports failure.  update_feed
always sets dirty — even when it leaves the state unchanged, which is the
one deviation from the claimed iff — while set_item_read, mark_feed_read,
remove_feed and prune either change nothing at all (dirty included) or
set the dirty flag. -/
theorem c6_dirty_flag_behavior :
    (∀ (c : FeedCache) (w : Bool), c.dirty = false →
      save c w = ⟨c, false, true⟩) ∧
    (∀ (c : FeedCache), c.dirty = true →
      save c true = ⟨{ c with dirty := false }, true, true⟩) ∧
    (∀ (c : FeedCache), c.dirty = true →
      save c false = ⟨c, true, false⟩) ∧
    (∀ (c : FeedCache) (url name : String) (items : List CachedItem)
        (err : Option String) (now : Int),
      (update_feed c url name items err now).dirty = true) ∧
    (∀ (c : FeedCache) (url id : String) (r : Bool),
      set_item_read c url id r = c ∨ (set_item_read c url id r).dirty = true) ∧
    (∀ (c : FeedCache) (url : String),
      mark_feed_read c url = c ∨ (mark_feed_read c url).dirty = true) ∧
    (∀ (c : FeedCache) (url : String),
      remove_feed c url = c ∨ (remove_feed c url).dirty = true) ∧
    (∀ (c : FeedCache) (maxItems : Nat),
      prune c maxItems = c ∨ (prune c maxItems).dirty = true) := by
  refine ⟨?_, ?_, ?_, ?_, ?_, ?_, ?_, ?_⟩
  · intro c w h; simp [save, h]
  · intro c h; simp [save, h]
  · intro c h; simp [save, h]
  · intro c url name items err now; simp [update_feed]
  · intro c url id r
    rcases h : lookupFeed c.feeds url with _ | f
    · left; simp [set_item_read, h]
    · rcases hch : (setReadInList f.items id r).2 with _ | _
      · left
        simp only [set_item_read, h]
        rw [setReadInList_unchanged f.items id r hch] at *
        rw [show ({ f with items := f.items } : CachedFeed) = f from rfl,
          setFeed_of_lookup_eq c.feeds url f h, hch]
        simp
      · right; simp [set_item_read, h, hch]
  · intro c url
    rcases h : lookupFeed c.feeds url with _ | f
    · left; simp [mark_feed_read, h]
    · rcases hch : (markReadAll f.items).2 with _ | _
      · left
        simp only [mark_feed_read, h]
        rw [markReadAll_unchanged f.items hch] at *
        rw [show ({ f with items := f.items } : CachedFeed) = f from rfl,
          setFeed_of_lookup_eq c.feeds url f h, hch]
        simp
      · right; simp [mark_feed_read, h, hch]
  · intro c url
    rcases hany : c.feeds.any (fun p => p.1 == url) with _ | _
    · left
      have habs : ∀ p ∈ c.feeds, p.1 ≠ url := by
        intro p hp
        have := List.any_eq_false.mp hany p hp
        simpa using this
      simp [remove_feed, hany, eraseFeed_absent c.feeds url habs]
    · right; simp [remove_feed, hany]
  · intro c maxItems
    rcases hany : c.feeds.any (fun p => (pruneFeed maxItems p.2).2) with _ | _
    · left
      have hmap : c.feeds.map (fun p => (p.1, (pruneFeed maxItems p.2).1)) = c.feeds := by
        apply map_eq_self_of_forall
        intro p hp
        have hsnd : (pruneFeed maxItems p.2).2 = false := by
          have := List.any_eq_false.mp hany p hp
          simpa using this
        rw [pruneFeed_unchanged maxItems p.2 hsnd]
      simp [prune, hany, hmap]
    · right; simp [prune, hany]

/-- C6, witness: the amended behavior at concrete caches — a clean cache
saves without writing, and update_feed marks a cache dirty. -/
theorem c6_dirty_flag_behavior_witness :
    save ⟨[], false⟩ true = ⟨⟨[], false⟩, false, true⟩ ∧
    (update_feed ⟨[], false⟩ "u" "n" [] none 0).dirty = true :=
  ⟨c6_dirty_flag_behavior.1 ⟨[], false⟩ true rfl,
   c6_dirty_flag_behavior.2.2.2.1 ⟨[], false⟩ "u" "n" [] none 0⟩

/-! ## Prune (claim C5) -/

theorem cmpTs_ne_gt_iff (x y : Int) : (cmpTs x y != Ordering.gt) = true ↔ x ≤ y := by
  unfold cmpTs
  split_ifs with h1 h2
  · exact ⟨fun _ => by omega, fun _ => by decide⟩
  · exact ⟨fun h => absurd h (by decide), fun h => absurd h (by omega)⟩
  · exact ⟨fun _ => by omega, fun _ => by decide⟩

theorem pruneLe_iff (a b : CachedItem) :
    pruneLe a b = true ↔
      ((a.read = false ∧ b.read = true) ∨
       (a.read = b.read ∧ b.cached_at ≤ a.cached_at)) := by
  rcases ha : a.read <;> rcases hb : b.read <;>
    simp only [pruneLe, pruneCmp, ha, hb]
  · rw [cmpTs_ne_gt_iff]; simp
  · exact ⟨fun _ => Or.inl ⟨by trivial, by trivial⟩, fun _ => by decide⟩
  · constructor
    · intro h; exact absurd h (by decide)
    · rintro (⟨h, _⟩ | ⟨h, _⟩) <;> exact absurd h (by decide)
  · rw [cmpTs_ne_gt_iff]; simp

theorem pruneLe_total (a b : CachedItem) : pruneLe a b || pruneLe b a := by
  rw [Bool.or_eq_true, pruneLe_iff, pruneLe_iff]
  rcases ha : a.read <;> rcases hb : b.read <;> simp [ha, hb] <;> omega

theorem pruneLe_trans (a b c : CachedItem) :
    pruneLe a b → pruneLe b c → pruneLe a c := by
  intro h1 h2
  rw [pruneLe_iff] at h1 h2 ⊢
  rcases h1 with ⟨ha1, hb1⟩ | ⟨hab, hba⟩ <;> rcases h2 with ⟨hb2, hc2⟩ | ⟨hbc, hcb⟩
  · simp [hb1] at hb2
  · left; exact ⟨ha1, hbc ▸ hb1⟩
  · left; exact ⟨hab.trans hb2, hc2⟩
  · right; exact ⟨hab.trans hbc, le_trans hcb hba⟩

/-- In a pruneLe-sorted list the unread items form the front: the list is
its unread part followed by its read part. -/
theorem unread_front :
    ∀ (l : List CachedItem), l.Pairwise (fun a b => pruneLe a b = true) →
      l.filter (fun i => !i.read) ++ l.filter (fun i => i.read) = l := by
  intro l
  induction l with
  | nil => intro _; rfl
  | cons x t ih =>
    intro h
    rcases List.pairwise_cons.mp h with ⟨hx, ht⟩
    by_cases hr : x.read = true
    · have hall : ∀ b ∈ t, b.read = true := by
        intro b hb
        have hle := (pruneLe_iff x b).mp (hx b hb)
        rcases hle with ⟨hxa, _⟩ | ⟨heq, _⟩
        · rw [hr] at hxa; cases hxa
        · rw [← heq, hr]
      have hf1 : t.filter (fun i => !i.read) = [] := by
        apply List.filter_eq_nil_iff.mpr
        intro a ha
        simp [hall a ha]
      have hf2 : t.filter (fun i => i.read) = t := by
        apply List.filter_eq_self.mpr
        intro a ha
        simp [hall a ha]
      simp [List.filter_cons, hr, hf1, hf2]
    · have hxr : x.read = false := by simpa using hr
      have htail := ih ht
      simp [List.filter_cons, hxr, htail]

/-- C5: after prune(n) every feed holds at most n items; a feed that was
over the limit keeps exactly the first n items of its list sorted with
unread items before read items and newest-cached first within each group;
and whenever a feed's unread count is at most n, every unread item
survives. -/
theorem c5_prune_bounds (c : FeedCache) (maxItems : Nat) :
    (∀ q ∈ (prune c maxItems).feeds, q.2.items.length ≤ maxItems) ∧
    (∀ p ∈ c.feeds,
      ((p.1, (pruneFeed maxItems p.2).1) ∈ (prune c maxItems).feeds) ∧
      (p.2.items.length > maxItems →
        (pruneFeed maxItems p.2).1.items =
          (p.2.items.mergeSort pruneLe).take maxItems) ∧
      (p.2.items.countP (fun i => !i.read) ≤ maxItems →
        ∀ i ∈ p.2.items, i.read = false → i ∈ (pruneFeed maxItems p.2).1.items)) := by
  constructor
  · intro q hq
    rcases List.mem_map.mp hq with ⟨p, hp, rfl⟩
    dsimp only
    by_cases hgt : p.2.items.length > maxItems
    · have : (pruneFeed maxItems p.2).1.items =
          (p.2.items.mergeSort pruneLe).take maxItems := by
        simp [pruneFeed, hgt]
      rw [this, List.length_take, List.length_mergeSort]
      omega
    · have : (pruneFeed maxItems p.2).1 = p.2 := by simp [pruneFeed, hgt]
      rw [this]
      omega
  · intro p hp
    refine ⟨List.mem_map_of_mem _ hp, ?_, ?_⟩
    · intro hgt
      simp [pruneFeed, hgt]
    · intro hcount i hi hread
      by_cases hgt : p.2.items.length > maxItems
      · have hitems : (pruneFeed maxItems p.2).1.items =
            (p.2.items.mergeSort pruneLe).take maxItems := by
          simp [pruneFeed, hgt]
        rw [hitems]
        have hperm : List.Perm (p.2.items.mergeSort pruneLe) p.2.items :=
          List.mergeSort_perm p.2.items pruneLe
        have hpair : (p.2.items.mergeSort pruneLe).Pairwise
            (fun a b => pruneLe a b = true) := by
          have h := List.sorted_mergeSort
            (fun a b c => pruneLe_trans a b c) (fun a b => pruneLe_total a b)
            p.2.items
          exact h
        have hsplit := unread_front _ hpair
        have hmemS : i ∈ p.2.items.mergeSort pruneLe := hperm.mem_iff.mpr hi
        have hmemU : i ∈ (p.2.items.mergeSort pruneLe).filter (fun j => !j.read) :=
          List.mem_filter.mpr ⟨hmemS, by simp [hread]⟩
        have hUlen :
            ((p.2.items.mergeSort pruneLe).filter (fun j => !j.read)).length ≤ maxItems := by
          have h1 : ((p.2.items.mergeSort pruneLe).filter (fun j => !j.read)).length =
              (p.2.items.mergeSort pruneLe).countP (fun j => !j.read) :=
            (List.countP_eq_length_filter _ _).symm
          have h2 : (p.2.items.mergeSort pruneLe).countP (fun j => !j.read) =
              p.2.items.countP (fun j => !j.read) := hperm.countP_eq _
          omega
        rw [← hsplit, List.take_append_eq_append_take,
          List.take_of_length_le hUlen]
        exact List.mem_append_left _ hmemU
      · have : (pruneFeed maxItems p.2).1 = p.2 := by simp [pruneFeed, hgt]
        rw [this]
        exact hi

/-- C5, witness: the prune bounds at a concrete two-item cache with
limit 1. -/
theorem c5_prune_bounds_witness :
    (∀ q ∈ (prune ⟨[("u", ⟨"u", "n",
        [⟨"a", "ta", none, none, none, true, 5⟩,
         ⟨"b", "tb", none, none, none, false, 3⟩], none, none⟩)], false⟩ 1).feeds,
      q.2.items.length ≤ 1) ∧
    (∀ p ∈ (⟨[("u", ⟨"u", "n",
        [⟨"a", "ta", none, none, none, true, 5⟩,
         ⟨"b", "tb", none, none, none, false, 3⟩], none, none⟩)], false⟩ : FeedCache).feeds,
      ((p.1, (pruneFeed 1 p.2).1) ∈ (prune ⟨[("u", ⟨"u", "n",
          [⟨"a", "ta", none, none, none, true, 5⟩,
           ⟨"b", "tb", none, none, none, false, 3⟩], none, none⟩)], false⟩ 1).feeds) ∧
      (p.2.items.length > 1 →
        (pruneFeed 1 p.2).1.items = (p.2.items.mergeSort pruneLe).take 1) ∧
      (p.2.items.countP (fun i => !i.read) ≤ 1 →
        ∀ i ∈ p.2.items, i.read = false → i ∈ (pruneFeed 1 p.2).1.items)) :=
  c5_prune_bounds ⟨[("u", ⟨"u", "n",
    [⟨"a", "ta", none, none, none, true, 5⟩,
     ⟨"b", "tb", none, none, none, false, 3⟩], none, none⟩)], false⟩ 1

/-! ## Import idempotence (claim C9) -/

theorem addToGroup_preserves (gs : List (String × List (String × String)))
    (k : String) (v p : String × String) :
    (∃ g ∈ gs, p ∈ g.2) → ∃ g ∈ addToGroup gs k v, p ∈ g.2 := by
  induction gs with
  | nil => rintro ⟨g, hg, _⟩; simp at hg
  | cons q t ih =>
    rintro ⟨g, hg, hp⟩
    by_cases hk : (q.1 == k) = true
    · simp only [addToGroup, hk, if_true]
      rcases List.mem_cons.mp hg with rfl | hgt
      · exact ⟨(g.1, g.2 ++ [v]), List.mem_cons_self _ _, List.mem_append_left _ hp⟩
      · exact ⟨g, List.mem_cons_of_mem _ hgt, hp⟩
    · simp only [addToGroup, hk, if_false, Bool.false_eq_true]
      rcases List.mem_cons.mp hg with rfl | hgt
      · exact ⟨g, List.mem_cons_self _ _, hp⟩
      · rcases ih ⟨g, hgt, hp⟩ with ⟨g2, hg2, hp2⟩
        exact ⟨g2, List.mem_cons_of_mem _ hg2, hp2⟩

theorem addToGroup_adds (gs : List (String × List (String × String)))
    (k : String) (v : String × String) :
    ∃ g ∈ addToGroup gs k v, v ∈ g.2 := by
  induction gs with
  | nil => exact ⟨(k, [v]), List.mem_singleton.mpr rfl, List.mem_singleton.mpr rfl⟩
  | cons q t ih =>
    by_cases hk : (q.1 == k) = true
    · simp only [addToGroup, hk, if_true]
      exact ⟨(q.1, q.2 ++ [v]), List.mem_cons_self _ _,
        List.mem_append_right _ (List.mem_singleton.mpr rfl)⟩
    · simp only [addToGroup, hk, if_false, Bool.false_eq_true]
      rcases ih with ⟨g, hg, hv⟩
      exact ⟨g, List.mem_cons_of_mem _ hg, hv⟩

theorem addFeedsToFolders_preserves (fl : List FolderConfig) (cat : String)
    (fs : List (String × String)) (u : String)
    (h : folderHasUrl fl u = true) :
    folderHasUrl (addFeedsToFolders fl cat fs) u = true := by
  induction fl with
  | nil => simp [folderHasUrl] at h
  | cons f t ih =>
    rcases List.any_eq_true.mp h with ⟨f2, hf2, hair⟩
    by_cases hc : eqIgnoreAsciiCase f.name cat = true
    · simp only [addFeedsToFolders, hc, if_true]
      apply List.any_eq_true.mpr
      rcases List.mem_cons.mp hf2 with rfl | hft
      · refine ⟨_, List.mem_cons_self _ _, ?_⟩
        show (f2.feeds ++ fs.map (fun p => ({ name := p.2, url := p.1 } : FeedConfig))).any
          (fun fd => fd.url == u) = true
        rw [List.any_append, Bool.or_eq_true]
        exact Or.inl hair
      · exact ⟨f2, List.mem_cons_of_mem _ hft, hair⟩
    · simp only [addFeedsToFolders, hc, if_false, Bool.false_eq_true]
      rcases List.mem_cons.mp hf2 with rfl | hft
      · exact List.any_eq_true.mpr ⟨f2, List.mem_cons_self _ _, hair⟩
      · have ht := ih (List.any_eq_true.mpr ⟨f2, hft, hair⟩)
        rcases List.any_eq_true.mp ht with ⟨f3, hf3, hair3⟩
        exact List.any_eq_true.mpr ⟨f3, List.mem_cons_of_mem _ hf3, hair3⟩

theorem addFeedsToFolders_adds (fl : List FolderConfig) (cat : String)
    (fs : List (String × String)) (u n : String) (h : (u, n) ∈ fs) :
    folderHasUrl (addFeedsToFolders fl cat fs) u = true := by
  have hmem : ({ name := n, url := u } : FeedConfig) ∈
      fs.map (fun p => ({ name := p.2, url := p.1 } : FeedConfig)) := by
    exact List.mem_map.mpr ⟨(u, n), h, rfl⟩
  have hany : (fs.map (fun p => ({ name := p.2, url := p.1 } : FeedConfig))).any
      (fun fd => fd.url == u) = true :=
    List.any_eq_true.mpr ⟨_, hmem, by simp⟩
  induction fl with
  | nil =>
    apply List.any_eq_true.mpr
    exact ⟨_, List.mem_singleton.mpr rfl, hany⟩
  | cons f t ih =>
    by_cases hc : eqIgnoreAsciiCase f.name cat = true
    · simp only [addFeedsToFolders, hc, if_true]
      apply List.any_eq_true.mpr
      refine ⟨_, List.mem_cons_self _ _, ?_⟩
      show (f.feeds ++ fs.map (fun p => ({ name := p.2, url := p.1 } : FeedConfig))).any
        (fun fd => fd.url == u) = true
      rw [List.any_append, Bool.or_eq_true]
      exact Or.inr hany
    · simp only [addFeedsToFolders, hc, if_false, Bool.false_eq_true]
      rcases List.any_eq_true.mp ih with ⟨f3, hf3, hair3⟩
      exact List.any_eq_true.mpr ⟨f3, List.mem_cons_of_mem _ hf3, hair3⟩

theorem foldGroups_preserves (gs : List (String × List (String × String))) :
    ∀ (fl : List FolderConfig) (u : String), folderHasUrl fl u = true →
      folderHasUrl (gs.foldl (fun fl g => addFeedsToFolders fl g.1 g.2) fl) u = true := by
  induction gs with
  | nil => intro fl u h; exact h
  | cons g t ih =>
    intro fl u h
    exact ih _ u (addFeedsToFolders_preserves fl g.1 g.2 u h)

theorem foldGroups_adds (gs : List (String × List (String × String))) :
    ∀ (fl : List FolderConfig) (g : String × List (String × String)) (u n : String),
      g ∈ gs → (u, n) ∈ g.2 →
      folderHasUrl (gs.foldl (fun fl g => addFeedsToFolders fl g.1 g.2) fl) u = true := by
  induction gs with
  | nil => intro _ _ _ _ hg _; simp at hg
  | cons q t ih =>
    intro fl g u n hg hp
    rcases List.mem_cons.mp hg with rfl | hgt
    · exact foldGroups_preserves t _ u (addFeedsToFolders_adds fl g.1 g.2 u n hp)
    · exact ih _ g u n hgt hp

theorem partitionStep_preserves (cfg : Config)
    (st : List (String × List (String × String)) × List (String × String) × Nat)
    (sub : Subscription) (p : String × String)
    (h : (∃ g ∈ st.1, p ∈ g.2) ∨ p ∈ st.2.1) :
    (∃ g ∈ (partitionStep cfg st sub).1, p ∈ g.2) ∨
      p ∈ (partitionStep cfg st sub).2.1 := by
  unfold partitionStep
  by_cases hk : urlKnown cfg sub.url = true
  · simpa [hk] using h
  · simp only [hk, if_false, Bool.false_eq_true]
    rcases hcat : sub.categories.head? with _ | cat
    · rcases h with hg | hr
      · exact Or.inl hg
      · exact Or.inr (List.mem_append_left _ hr)
    · rcases h with hg | hr
      · exact Or.inl (addToGroup_preserves _ _ _ _ hg)
      · exact Or.inr hr

theorem partitionStep_adds (cfg : Config)
    (st : List (String × List (String × String)) × List (String × String) × Nat)
    (sub : Subscription) (h : urlKnown cfg sub.url = false) :
    (∃ g ∈ (partitionStep cfg st sub).1, (sub.url, sub.title) ∈ g.2) ∨
      (sub.url, sub.title) ∈ (partitionStep cfg st sub).2.1 := by
  unfold partitionStep
  simp only [h, Bool.false_eq_true, if_false]
  rcases hcat : sub.categories.head? with _ | cat
  · exact Or.inr (List.mem_append_right _ (List.mem_singleton.mpr rfl))
  · exact Or.inl (addToGroup_adds _ _ _)

theorem partitionFold_preserves (cfg : Config) :
    ∀ (subs : List Subscription)
      (st : List (String × List (String × String)) × List (String × String) × Nat)
      (p : String × String),
      ((∃ g ∈ st.1, p ∈ g.2) ∨ p ∈ st.2.1) →
      ((∃ g ∈ (subs.foldl (partitionStep cfg) st).1, p ∈ g.2) ∨
        p ∈ (subs.foldl (partitionStep cfg) st).2.1) := by
  intro subs
  induction subs with
  | nil => intro st p h; exact h
  | cons s t ih =>
    intro st p h
    exact ih _ p (partitionStep_preserves cfg st s p h)

theorem partitionFold_adds (cfg : Config) :
    ∀ (subs : List Subscription)
      (st : List (String × List (String × String)) × List (String × String) × Nat)
      (sub : Subscription), sub ∈ subs → urlKnown cfg sub.url = false →
      ((∃ g ∈ (subs.foldl (partitionStep cfg) st).1, (sub.url, sub.title) ∈ g.2) ∨
        (sub.url, sub.title) ∈ (subs.foldl (partitionStep cfg) st).2.1) := by
  intro subs
  induction subs with
  | nil => intro _ _ hg; simp at hg
  | cons s t ih =>
    intro st sub hmem hu
    rcases List.mem_cons.mp hmem with rfl | hst
    · exact partitionFold_preserves cfg t _ _ (partitionStep_adds cfg st sub hu)
    · exact ih _ sub hst hu

theorem partitionFold_all_known (cfg : Config) :
    ∀ (subs : List Subscription), (∀ sub ∈ subs, urlKnown cfg sub.url = true) →
      ∀ (gs : List (String × List (String × String))) (rt : List (String × String))
        (n : Nat),
        subs.foldl (partitionStep cfg) (gs, rt, n) = (gs, rt, n + subs.length) := by
  intro subs
  induction subs with
  | nil => intro _ gs rt n; simp
  | cons s t ih =>
    intro h gs rt n
    have hs : urlKnown cfg s.url = true := h s (List.mem_cons_self s t)
    simp only [List.foldl_cons, partitionStep, hs, if_true]
    rw [ih (fun x hx => h x (List.mem_cons_of_mem s hx)) gs rt (n + 1)]
    have : n + 1 + t.length = n + (s :: t).length := by simp [List.length_cons]; omega
    rw [this]

theorem import_known_mono (cfg : Config) (subs : List Subscription) (u : String)
    (h : urlKnown cfg u = true) :
    urlKnown (import_subscriptions cfg subs).1 u = true := by
  unfold import_subscriptions urlKnown
  unfold urlKnown at h
  rw [Bool.or_eq_true] at h ⊢
  rcases h with hf | hr
  · exact Or.inl (foldGroups_preserves _ cfg.folders u hf)
  · right
    rcases List.any_eq_true.mp hr with ⟨fd, hfd, hu⟩
    exact List.any_eq_true.mpr ⟨fd, List.mem_append_left _ hfd, hu⟩

theorem import_known_new (cfg : Config) (subs : List Subscription)
    (sub : Subscription) (hmem : sub ∈ subs) (h : urlKnown cfg sub.url = false) :
    urlKnown (import_subscriptions cfg subs).1 sub.url = true := by
  have hpart := partitionFold_adds cfg subs ([], [], 0) sub hmem h
  unfold import_subscriptions urlKnown
  rw [Bool.or_eq_true]
  rcases hpart with ⟨g, hg, hp⟩ | hr
  · exact Or.inl (foldGroups_adds _ cfg.folders g sub.url sub.title hg hp)
  · right
    apply List.any_eq_true.mpr
    refine ⟨{ name := sub.title, url := sub.url }, ?_, by simp⟩
    exact List.mem_append_right _ (List.mem_map.mpr ⟨(sub.url, sub.title), hr, rfl⟩)

/-- The counts of import_subscriptions when partitioning finds every
subscription already known. -/
theorem import_counts_of_all_known (cfg2 : Config) (subs : List Subscription)
    (h : partitionSubs cfg2 subs = ([], [], subs.length)) :
    (import_subscriptions cfg2 subs).2.feeds_imported = 0 ∧
    (import_subscriptions cfg2 subs).2.feeds_existing = subs.length := by
  constructor <;> simp [import_subscriptions, h]

/-- C9: a second run of Phase 1 against the same subscription list
imports nothing and counts every subscription as existing, because every
subscription url is already known (among the folders' feeds or the root
feeds) after the first run. -/
theorem c9_import_idempotent (cfg : Config) (subs : List Subscription) :
    (import_subscriptions (import_subscriptions cfg subs).1 subs).2.feeds_imported = 0 ∧
    (import_subscriptions (import_subscriptions cfg subs).1 subs).2.feeds_existing =
      subs.length := by
  have hknown : ∀ sub ∈ subs,
      urlKnown (import_subscriptions cfg subs).1 sub.url = true := by
    intro sub hs
    rcases hu : urlKnown cfg sub.url with _ | _
    · exact import_known_new cfg subs sub hs hu
    · exact import_known_mono cfg subs sub.url hu
  have hpart : partitionSubs (import_subscriptions cfg subs).1 subs =
      ([], [], subs.length) := by
    unfold partitionSubs
    rw [partitionFold_all_known (import_subscriptions cfg subs).1 subs hknown [] [] 0]
    simp
  exact import_counts_of_all_known _ subs hpart

/-! ## Sync error isolation (claim C8) -/

/-- phase2Sub only appends to the error list; cache and count do not
depend on the errors accumulated so far. -/
theorem phase2Sub_split (readIds : List String)
    (fetch : String → Except String (List StreamItem))
    (st : FeedCache × Nat × List String) (sub : Subscription) :
    phase2Sub readIds fetch st sub =
      ((phase2Sub readIds fetch (st.1, st.2.1, []) sub).1,
       (phase2Sub readIds fetch (st.1, st.2.1, []) sub).2.1,
       st.2.2 ++ (phase2Sub readIds fetch (st.1, st.2.1, []) sub).2.2) := by
  unfold phase2Sub
  rcases fetch sub.id with e | items <;> simp

theorem phase2Fold_split (readIds : List String)
    (fetch : String → Except String (List StreamItem)) :
    ∀ (subs : List Subscription) (st : FeedCache × Nat × List String),
      subs.foldl (phase2Sub readIds fetch) st =
        ((subs.foldl (phase2Sub readIds fetch) (st.1, st.2.1, [])).1,
         (subs.foldl (phase2Sub readIds fetch) (st.1, st.2.1, [])).2.1,
         st.2.2 ++ (subs.foldl (phase2Sub readIds fetch) (st.1, st.2.1, [])).2.2) := by
  intro subs
  induction subs with
  | nil => intro st; simp
  | cons s t ih =>
    intro st
    rw [List.foldl_cons, List.foldl_cons, ih (phase2Sub readIds fetch st s),
      phase2Sub_split readIds fetch st s]
    dsimp only
    rw [ih (phase2Sub readIds fetch (st.1, st.2.1, []) s)]
    dsimp only
    rw [List.append_assoc]

/-- phase3Feed only appends to the error list; the count does not depend
on the errors accumulated so far. -/
theorem phase3Feed_split (cache : FeedCache) (subs : List Subscription)
    (fetch : String → Except String (List StreamItem))
    (markOk : List String → Except String Unit)
    (st : Nat × List String) (u : String) :
    phase3Feed cache subs fetch markOk st u =
      ((phase3Feed cache subs fetch markOk (st.1, []) u).1,
       st.2 ++ (phase3Feed cache subs fetch markOk (st.1, []) u).2) := by
  unfold phase3Feed
  rcases h1 : lookupFeed cache.feeds u with _ | cached
  · simp
  · rcases h2 : lookupFeedId subs u with _ | fid
    · simp
    · rcases h3 : fetch fid with e | sitems
      · simp [h3]
      · by_cases h4 : collectToMark cached sitems = []
        · simp [h3, h4]
        · rcases h5 : markOk (collectToMark cached sitems) with e | u2 <;>
            simp [h3, h4, h5]

theorem phase3Fold_split (cache : FeedCache) (subs : List Subscription)
    (fetch : String → Except String (List StreamItem))
    (markOk : List String → Except String Unit) :
    ∀ (urls : List String) (st : Nat × List String),
      urls.foldl (phase3Feed cache subs fetch markOk) st =
        ((urls.foldl (phase3Feed cache subs fetch markOk) (st.1, [])).1,
         st.2 ++ (urls.foldl (phase3Feed cache subs fetch markOk) (st.1, [])).2) := by
  intro urls
  induction urls with
  | nil => intro st; simp
  | cons u t ih =>
    intro st
    rw [List.foldl_cons, List.foldl_cons, ih (phase3Feed cache subs fetch markOk st u),
      phase3Feed_split cache subs fetch markOk st u]
    dsimp only
    rw [ih (phase3Feed cache subs fetch markOk (st.1, []) u)]
    dsimp only
    rw [List.append_assoc]

/-- C8: in Phase 2 and Phase 3 a failing per-feed fetch does not abort
the phase: the failing feed contributes exactly one human-readable entry
to the errors list, and the resulting cache and counters are the same as
if the failing feed had not been in the list at all. -/
theorem c8_per_feed_error_isolation :
    (∀ (readIds : List String) (A B : List Subscription) (b : Subscription)
        (fetch : String → Except String (List StreamItem)) (cache : FeedCache)
        (e : String), fetch b.id = .error e →
      (sync_read_states_from_server readIds (A ++ b :: B) fetch cache).1 =
        (sync_read_states_from_server readIds (A ++ B) fetch cache).1 ∧
      (sync_read_states_from_server readIds (A ++ b :: B) fetch cache).2.items_marked_read
        = (sync_read_states_from_server readIds (A ++ B) fetch cache).2.items_marked_read ∧
      ∃ E1 E2,
        (sync_read_states_from_server readIds (A ++ b :: B) fetch cache).2.errors =
          E1 ++ fetchErr b.title e :: E2 ∧
        (sync_read_states_from_server readIds (A ++ B) fetch cache).2.errors =
          E1 ++ E2) ∧
    (∀ (cache : FeedCache) (cfg cfg2 : Config) (subs : List Subscription)
        (fetch : String → Except String (List StreamItem))
        (markOk : List String → Except String Unit)
        (A B : List String) (u : String) (f : CachedFeed) (fid e : String),
      configUrls cfg = A ++ u :: B → configUrls cfg2 = A ++ B →
      lookupFeed cache.feeds u = some f → lookupFeedId subs u = some fid →
      fetch fid = .error e →
      (sync_read_states_to_server cache cfg subs fetch markOk).items_synced_to_server =
        (sync_read_states_to_server cache cfg2 subs fetch markOk).items_synced_to_server ∧
      ∃ E1 E2,
        (sync_read_states_to_server cache cfg subs fetch markOk).errors =
          E1 ++ fetchErr u e :: E2 ∧
        (sync_read_states_to_server cache cfg2 subs fetch markOk).errors = E1 ++ E2) := by
  constructor
  · intro readIds A B b fetch cache e hfetch
    unfold sync_read_states_from_server
    dsimp only
    rw [List.foldl_append, List.foldl_append, List.foldl_cons]
    rcases hSA : List.foldl (phase2Sub readIds fetch) (cache, 0, []) A with ⟨c1, n1, e1⟩
    have hb : phase2Sub readIds fetch (c1, n1, e1) b =
        (c1, n1, e1 ++ [fetchErr b.title e]) := by
      unfold phase2Sub
      rw [hfetch]
    rw [hb, phase2Fold_split readIds fetch B (c1, n1, e1 ++ [fetchErr b.title e]),
      phase2Fold_split readIds fetch B (c1, n1, e1)]
    dsimp only
    refine ⟨rfl, rfl, e1,
      (List.foldl (phase2Sub readIds fetch) (c1, n1, []) B).2.2, ?_, rfl⟩
    rw [List.append_assoc]
    rfl
  · intro cache cfg cfg2 subs fetch markOk A B u f fid e hcfg hcfg2 hlook hfid hfetch
    unfold sync_read_states_to_server
    dsimp only
    rw [hcfg, hcfg2, List.foldl_append, List.foldl_append, List.foldl_cons]
    rcases hSA : List.foldl (phase3Feed cache subs fetch markOk) (0, []) A with ⟨n1, e1⟩
    have hb : phase3Feed cache subs fetch markOk (n1, e1) u =
        (n1, e1 ++ [fetchErr u e]) := by
      simp [phase3Feed, hlook, hfid, hfetch]
    rw [hb, phase3Fold_split cache subs fetch markOk B (n1, e1 ++ [fetchErr u e]),
      phase3Fold_split cache subs fetch markOk B (n1, e1)]
    dsimp only
    refine ⟨rfl, e1,
      (List.foldl (phase3Feed cache subs fetch markOk) (n1, []) B).2, ?_, rfl⟩
    rw [List.append_assoc]
    rfl

/-- C8, witness: both phases at concrete inputs with a failing fetch. -/
theorem c8_per_feed_error_isolation_witness :
    (∃ E1 E2,
      (sync_read_states_from_server [] [⟨"feed/b", "B", "ub", []⟩]
          (fun _ => Except.error "boom") ⟨[], false⟩).2.errors =
        E1 ++ fetchErr "B" "boom" :: E2 ∧
      (sync_read_states_from_server [] []
          (fun _ => Except.error "boom") ⟨[], false⟩).2.errors = E1 ++ E2) ∧
    (∃ E1 E2,
      (sync_read_states_to_server ⟨[("u", ⟨"u", "n", [], none, none⟩)], false⟩
          ⟨[], [⟨"N", "u"⟩]⟩ [⟨"feed/u", "T", "u", []⟩]
          (fun _ => Except.error "boom") (fun _ => Except.ok ())).errors =
        E1 ++ fetchErr "u" "boom" :: E2 ∧
      (sync_read_states_to_server ⟨[("u", ⟨"u", "n", [], none, none⟩)], false⟩
          ⟨[], []⟩ [⟨"feed/u", "T", "u", []⟩]
          (fun _ => Except.error "boom") (fun _ => Except.ok ())).errors = E1 ++ E2) :=
  ⟨(c8_per_feed_error_isolation.1 [] [] [] ⟨"feed/b", "B", "ub", []⟩
      (fun _ => Except.error "boom") ⟨[], false⟩ "boom" rfl).2.2,
   (c8_per_feed_error_isolation.2 ⟨[("u", ⟨"u", "n", [], none, none⟩)], false⟩
      ⟨[], [⟨"N", "u"⟩]⟩ ⟨[], []⟩ [⟨"feed/u", "T", "u", []⟩]
      (fun _ => Except.error "boom") (fun _ => Except.ok ())
      [] [] "u" ⟨"u", "n", [], none, none⟩ "feed/u" "boom" rfl rfl rfl rfl rfl).2⟩

/-! ## Phase 2 marks linked read items (claim C7) -/

/-- find? over a cons whose head id matches. -/
theorem find?_id_cons_pos (y : CachedItem) (t : List CachedItem) (lid : String)
    (h : (y.id == lid) = true) :
    (y :: t).find? (fun x => x.id == lid) = some y :=
  List.find?_cons_of_pos t h

/-- find? over a cons whose head id does not match. -/
theorem find?_id_cons_neg (y : CachedItem) (t : List CachedItem) (lid : String)
    (h : (y.id == lid) = false) :
    (y :: t).find? (fun x => x.id == lid) = t.find? (fun x => x.id == lid) :=
  List.find?_cons_of_neg t (by simp [h])

/-- How set_item_read's inner loop interacts with locating an item: when
the targeted id is the looked-up id, the first match has its read flag
set (when it differed); any other target leaves the lookup unchanged. -/
theorem find?_setReadInList :
    ∀ (items : List CachedItem) (i2 : String) (r2 : Bool) (lid : String),
      (setReadInList items i2 r2).1.find? (fun x => x.id == lid) =
        if i2 = lid then
          (items.find? (fun x => x.id == lid)).map
            (fun it => if it.read != r2 then { it with read := r2 } else it)
        else items.find? (fun x => x.id == lid) := by
  intro items i2 r2 lid
  induction items with
  | nil => by_cases hil : i2 = lid <;> simp [setReadInList, hil]
  | cons x t ih =>
    by_cases hx2 : (x.id == i2) = true
    · have hxeq : x.id = i2 := by simpa using hx2
      by_cases hr : (x.read != r2) = true
      · simp only [setReadInList, hx2, hr, if_true]
        by_cases hil : i2 = lid
        · subst hil
          rw [find?_id_cons_pos ({ x with read := r2 } : CachedItem) t i2 hx2,
            find?_id_cons_pos x t i2 hx2, if_pos rfl]
          have hxr : ¬ x.read = r2 := by simpa using hr
          simp [hxr]
        · have hxl : (x.id == lid) = false := by
            rw [hxeq]
            simpa using hil
          rw [find?_id_cons_neg ({ x with read := r2 } : CachedItem) t lid hxl,
            find?_id_cons_neg x t lid hxl, if_neg hil]
      · simp only [setReadInList, hx2, if_true, if_neg hr]
        by_cases hil : i2 = lid
        · subst hil
          rw [find?_id_cons_pos x t i2 hx2, if_pos rfl]
          simp only [Option.map_some']
          rw [if_neg hr]
        · rw [if_neg hil]
    · simp only [setReadInList, hx2, if_false, Bool.false_eq_true]
      by_cases hxl : (x.id == lid) = true
      · have hnil : ¬ i2 = lid := by
          intro hcon
          apply hx2
          rw [hcon]
          exact hxl
        rw [find?_id_cons_pos x _ lid hxl, find?_id_cons_pos x t lid hxl, if_neg hnil]
      · have hxl2 : (x.id == lid) = false := by simpa using hxl
        rw [find?_id_cons_neg x _ lid hxl2, find?_id_cons_neg x t lid hxl2]
        exact ih

/-- What set_item_read does to the located read flag under the same url:
with the target id it rewrites the first match's flag, with any other id
it changes nothing. -/
theorem itemRead_after_set (c : FeedCache) (u2 i2 : String) (r2 : Bool)
    (f : CachedFeed) (h2 : lookupFeed c.feeds u2 = some f) (lid : String) :
    itemRead (set_item_read c u2 i2 r2) u2 lid =
      if i2 = lid then
        ((f.items.find? (fun x => x.id == lid)).map
          (fun it => if it.read != r2 then { it with read := r2 } else it)).map
          (fun i => i.read)
      else itemRead c u2 lid := by
  unfold set_item_read
  rw [h2]
  dsimp only
  unfold itemRead
  rw [lookupFeed_setFeed_self]
  simp only [Option.some_bind]
  rw [find?_setReadInList]
  by_cases hil : i2 = lid
  · rw [if_pos hil, if_pos hil]
  · rw [if_neg hil, if_neg hil, h2]
    simp only [Option.some_bind]

/-- set_item_read on another feed url does not affect itemRead. -/
theorem itemRead_after_set_ne (c : FeedCache) (u2 i2 : String) (r2 : Bool)
    (u lid : String) (hu : u ≠ u2) :
    itemRead (set_item_read c u2 i2 r2) u lid = itemRead c u lid := by
  unfold set_item_read
  rcases h2 : lookupFeed c.feeds u2 with _ | f
  · rfl
  · unfold itemRead
    dsimp only
    rw [lookupFeed_setFeed_ne _ _ _ _ hu]

/-- Presence of an item (by feed url and id) survives any set_item_read. -/
theorem itemRead_pres (c : FeedCache) (u2 i2 : String) (r2 : Bool) (u lid : String)
    (h : (itemRead c u lid).isSome = true) :
    (itemRead (set_item_read c u2 i2 r2) u lid).isSome = true := by
  by_cases hu : u = u2
  · subst hu
    rcases h2 : lookupFeed c.feeds u with _ | f
    · unfold set_item_read
      rw [h2]
      exact h
    · rw [itemRead_after_set c u i2 r2 f h2 lid]
      by_cases hil : i2 = lid
      · rw [if_pos hil]
        have hh : ((f.items.find? (fun i => i.id == lid)).map (fun i => i.read)).isSome
            = true := by
          unfold itemRead at h
          rw [h2] at h
          simpa using h
        rcases hf : f.items.find? (fun i => i.id == lid) with _ | it
        · rw [hf] at hh
          simp at hh
        · rw [hf]
          simp
      · rw [if_neg hil]
        exact h
  · rw [itemRead_after_set_ne c u2 i2 r2 u lid hu]
    exact h

/-- An item already read stays read under any set_item_read with
read = true. -/
theorem itemRead_true_pres (c : FeedCache) (u2 i2 u lid : String)
    (h : itemRead c u lid = some true) :
    itemRead (set_item_read c u2 i2 true) u lid = some true := by
  by_cases hu : u = u2
  · subst hu
    rcases h2 : lookupFeed c.feeds u with _ | f
    · unfold set_item_read
      rw [h2]
      exact h
    · rw [itemRead_after_set c u i2 true f h2 lid]
      by_cases hil : i2 = lid
      · rw [if_pos hil]
        have hh : (f.items.find? (fun i => i.id == lid)).map (fun i => i.read)
            = some true := by
          unfold itemRead at h
          rw [h2] at h
          simpa using h
        rcases hf : f.items.find? (fun i => i.id == lid) with _ | it
        · rw [hf] at hh
          simp at hh
        · rw [hf] at hh
          simp only [Option.map_some'] at hh
          have hread : it.read = true := by simpa using hh
          rw [hf]
          simp [hread]
      · rw [if_neg hil]
        exact h
  · rw [itemRead_after_set_ne c u2 i2 true u lid hu]
    exact h

/-- set_item_read with read = true on a present item leaves that item
read. -/
theorem itemRead_set_true (c : FeedCache) (u lid : String)
    (h : (itemRead c u lid).isSome = true) :
    itemRead (set_item_read c u lid true) u lid = some true := by
  rcases h2 : lookupFeed c.feeds u with _ | f
  · unfold itemRead at h
    rw [h2] at h
    simp at h
  · rw [itemRead_after_set c u lid true f h2 lid, if_pos rfl]
    have hh : ((f.items.find? (fun i => i.id == lid)).map (fun i => i.read)).isSome
        = true := by
      unfold itemRead at h
      rw [h2] at h
      simpa using h
    rcases hf : f.items.find? (fun i => i.id == lid) with _ | it
    · rw [hf] at hh
      simp at hh
    · rw [hf]
      rcases hread : it.read with _ | _ <;> simp [hread]

theorem phase2Item_pres (readIds : List String) (url : String)
    (st : FeedCache × Nat) (item : StreamItem) (u lid : String)
    (h : (itemRead st.1 u lid).isSome = true) :
    (itemRead (phase2Item readIds url st item).1 u lid).isSome = true := by
  unfold phase2Item
  rcases hp : parse_item_id item.id with _ | d
  · exact h
  · dsimp only
    by_cases hc : readIds.contains (intToDecStr d) = true
    · simp only [hc, if_true]
      rcases hl : item.link with _ | l
      · exact h
      · exact itemRead_pres st.1 url _ true u lid h
    · simp only [hc, Bool.false_eq_true, if_false]
      exact h

theorem phase2Item_true (readIds : List String) (url : String)
    (st : FeedCache × Nat) (item : StreamItem) (u lid : String)
    (h : itemRead st.1 u lid = some true) :
    itemRead (phase2Item readIds url st item).1 u lid = some true := by
  unfold phase2Item
  rcases hp : parse_item_id item.id with _ | d
  · exact h
  · dsimp only
    by_cases hc : readIds.contains (intToDecStr d) = true
    · simp only [hc, if_true]
      rcases hl : item.link with _ | l
      · exact h
      · exact itemRead_true_pres st.1 url _ u lid h
    · simp only [hc, Bool.false_eq_true, if_false]
      exact h

theorem foldItems_pres (readIds : List String) (url : String) :
    ∀ (items : List StreamItem) (st : FeedCache × Nat) (u lid : String),
      (itemRead st.1 u lid).isSome = true →
      (itemRead (items.foldl (phase2Item readIds url) st).1 u lid).isSome = true := by
  intro items
  induction items with
  | nil => intro st u lid h; exact h
  | cons it t ih =>
    intro st u lid h
    exact ih _ u lid (phase2Item_pres readIds url st it u lid h)

theorem foldItems_true (readIds : List String) (url : String) :
    ∀ (items : List StreamItem) (st : FeedCache × Nat) (u lid : String),
      itemRead st.1 u lid = some true →
      itemRead (items.foldl (phase2Item readIds url) st).1 u lid = some true := by
  intro items
  induction items with
  | nil => intro st u lid h; exact h
  | cons it t ih =>
    intro st u lid h
    exact ih _ u lid (phase2Item_true readIds url st it u lid h)

theorem phase2Sub_pres (readIds : List String)
    (fetch : String → Except String (List StreamItem))
    (st : FeedCache × Nat × List String) (sub : Subscription) (u lid : String)
    (h : (itemRead st.1 u lid).isSome = true) :
    (itemRead (phase2Sub readIds fetch st sub).1 u lid).isSome = true := by
  unfold phase2Sub
  rcases hf : fetch sub.id with e | items
  · exact h
  · exact foldItems_pres readIds sub.url items (st.1, st.2.1) u lid h

theorem phase2Sub_true (readIds : List String)
    (fetch : String → Except String (List StreamItem))
    (st : FeedCache × Nat × List String) (sub : Subscription) (u lid : String)
    (h : itemRead st.1 u lid = some true) :
    itemRead (phase2Sub readIds fetch st sub).1 u lid = some true := by
  unfold phase2Sub
  rcases hf : fetch sub.id with e | items
  · exact h
  · exact foldItems_true readIds sub.url items (st.1, st.2.1) u lid h

theorem foldSubs_pres (readIds : List String)
    (fetch : String → Except String (List StreamItem)) :
    ∀ (subs : List Subscription) (st : FeedCache × Nat × List String) (u lid : String),
      (itemRead st.1 u lid).isSome = true →
      (itemRead (subs.foldl (phase2Sub readIds fetch) st).1 u lid).isSome = true := by
  intro subs
  induction subs with
  | nil => intro st u lid h; exact h
  | cons s t ih =>
    intro st u lid h
    exact ih _ u lid (phase2Sub_pres readIds fetch st s u lid h)

theorem foldSubs_true (readIds : List String)
    (fetch : String → Except String (List StreamItem)) :
    ∀ (subs : List Subscription) (st : FeedCache × Nat × List String) (u lid : String),
      itemRead st.1 u lid = some true →
      itemRead (subs.foldl (phase2Sub readIds fetch) st).1 u lid = some true := by
  intro subs
  induction subs with
  | nil => intro st u lid h; exact h
  | cons s t ih =>
    intro st u lid h
    exact ih _ u lid (phase2Sub_true readIds fetch st s u lid h)

/-- The triggering step: at an item whose id parses, is in the read set
and carries a link, phase2Item marks the recomputed identity read. -/
theorem phase2Item_set (readIds : List String) (url : String)
    (st : FeedCache × Nat) (item : StreamItem) (d : Int) (l : String)
    (hparse : parse_item_id item.id = some d)
    (hmem : readIds.contains (intToDecStr d) = true)
    (hlink : item.link = some l)
    (hpresent : (itemRead st.1 url (generate_id (some l) (item.title.getD ""))).isSome
      = true) :
    itemRead (phase2Item readIds url st item).1 url
      (generate_id (some l) (item.title.getD "")) = some true := by
  unfold phase2Item
  rw [hparse]
  dsimp only
  rw [hlink]
  simp only [hmem, if_true]
  exact itemRead_set_true st.1 url _ hpresent

/-- C7, counterexample: a remote item whose id is in the read set but
which carries no link is skipped by phase 2, even though the cache holds
an item under the recomputed identity (from link = None and the title):
the cached item stays unread and nothing is counted, where the claim says
it would be marked read. -/
theorem c7_linkless_item_counterexample :
    itemRead (sync_read_states_from_server ["31"] [⟨"feed/1", "T", "u", []⟩]
        (fun _ => Except.ok [⟨"31", some "t", [], none, none⟩])
        ⟨[("u", ⟨"u", "n",
          [⟨generate_id none "t", "t", none, none, none, false, 0⟩],
          none, none⟩)], false⟩).1
      "u" (generate_id none "t") = some false ∧
    (sync_read_states_from_server ["31"] [⟨"feed/1", "T", "u", []⟩]
        (fun _ => Except.ok [⟨"31", some "t", [], none, none⟩])
        ⟨[("u", ⟨"u", "n",
          [⟨generate_id none "t", "t", none, none, none, false, 0⟩],
          none, none⟩)], false⟩).2.items_marked_read = 0 := by
  constructor
  · rfl
  · rfl

/-- C7, amended: for every successfully fetched remote item whose
normalized id is in the read set AND which carries a link, phase 2
recomputes the local identity from that link and the item's title and
issues set_item_read(sub.url, id, true); hence if the cache holds an item
with that identity under the subscription's url it ends the phase marked
read.  Items without a link are skipped. -/
theorem c7_pull_marks_linked_items (readIds : List String)
    (subs : List Subscription) (sub : Subscription)
    (items : List StreamItem) (item : StreamItem)
    (fetch : String → Except String (List StreamItem)) (cache : FeedCache)
    (d : Int) (l : String)
    (hsub : sub ∈ subs)
    (hfetch : fetch sub.id = Except.ok items)
    (hitem : item ∈ items)
    (hparse : parse_item_id item.id = some d)
    (hmem : readIds.contains (intToDecStr d) = true)
    (hlink : item.link = some l)
    (hpresent : (itemRead cache sub.url
      (generate_id (some l) (item.title.getD ""))).isSome = true) :
    itemRead (sync_read_states_from_server readIds subs fetch cache).1
      sub.url (generate_id (some l) (item.title.getD "")) = some true := by
  rcases List.append_of_mem hsub with ⟨A, B, rfl⟩
  rcases List.append_of_mem hitem with ⟨I1, I2, rfl⟩
  unfold sync_read_states_from_server
  dsimp only
  rw [List.foldl_append, List.foldl_cons]
  apply foldSubs_true
  rcases hSA : List.foldl (phase2Sub readIds fetch) (cache, 0, []) A with ⟨c1, n1, e1⟩
  have hpres1 : (itemRead c1 sub.url
      (generate_id (some l) (item.title.getD ""))).isSome = true := by
    have hx := foldSubs_pres readIds fetch A (cache, 0, []) sub.url
      (generate_id (some l) (item.title.getD "")) hpresent
    rw [hSA] at hx
    exact hx
  show itemRead (phase2Sub readIds fetch (c1, n1, e1) sub).1 sub.url
      (generate_id (some l) (item.title.getD "")) = some true
  unfold phase2Sub
  rw [hfetch]
  dsimp only
  rw [List.foldl_append, List.foldl_cons]
  apply foldItems_true
  apply phase2Item_set readIds sub.url _ item d l hparse hmem hlink
  rcases hS1 : List.foldl (phase2Item readIds sub.url) (c1, n1) I1 with ⟨c2, n2⟩
  have hx := foldItems_pres readIds sub.url I1 (c1, n1) sub.url
    (generate_id (some l) (item.title.getD "")) hpres1
  rw [hS1] at hx
  exact hx

/-- C7, witness: a linked read remote item marks the matching cached item
read at concrete inputs. -/
theorem c7_pull_marks_linked_items_witness :
    itemRead (sync_read_states_from_server ["31"] [⟨"feed/1", "T", "u", []⟩]
        (fun _ => Except.ok [⟨"31", some "t", [], some [⟨"L"⟩], none⟩])
        ⟨[("u", ⟨"u", "n",
          [⟨generate_id (some "L") "t", "t", some "L", none, none, false, 0⟩],
          none, none⟩)], false⟩).1
      "u" (generate_id (some "L") "t") = some true :=
  c7_pull_marks_linked_items ["31"] [⟨"feed/1", "T", "u", []⟩] ⟨"feed/1", "T", "u", []⟩
    [⟨"31", some "t", [], some [⟨"L"⟩], none⟩] ⟨"31", some "t", [], some [⟨"L"⟩], none⟩
    (fun _ => Except.ok [⟨"31", some "t", [], some [⟨"L"⟩], none⟩])
    ⟨[("u", ⟨"u", "n",
      [⟨generate_id (some "L") "t", "t", some "L", none, none, false, 0⟩],
      none, none⟩)], false⟩
    31 "L" (List.mem_singleton.mpr rfl) rfl (List.mem_singleton.mpr rfl)
    (by decide) rfl rfl (by decide)

end Feedo
